import Mathlib

/-!
Verification of the apt transport method for a cloud artifact registry.

The development shallowly embeds the Go sources:
  - the message model and canonical serialization (Message, Message.Get,
    Message.String, the newline-escaping regexp replacement, and the
    outbound-message constructors new100Message .. new401Message);
  - the message reader (AptMessageReader.ReadMessage, parseHeader, parseField);
  - the acquisition orchestrator (Method.Run, handleAcquire, handleConfigure,
    stringToBool, initClient), with the external collaborators (credentialed
    HTTP client, request dumper, downloader) modelled as oracle functions.

Go strings are modelled as lists of characters (`Str`); Go byte-wise string
comparison coincides with codepoint comparison because UTF-8 is order
preserving.  Whitespace trimming is modelled for the ASCII whitespace
characters recognised by unicode.IsSpace.  The Go `int` is modelled as `Int`
together with the 64-bit range where integer parsing is concerned.
-/

namespace ArApt

/-- Go strings, modelled as lists of characters. -/
abbrev Str := List Char

/-- Embeds a Lean string literal as a `Str`. -/
def str (s : String) : Str := s.data

/-- ASCII whitespace as recognised by unicode.IsSpace (space, tab, newline,
vertical tab, form feed, carriage return). -/
def isSpace (c : Char) : Bool :=
  c.toNat = 32 || c.toNat = 9 || c.toNat = 10 || c.toNat = 11 || c.toNat = 12 || c.toNat = 13

/-- strings.TrimSpace: drop whitespace from both ends. -/
def trimSpace (s : Str) : Str :=
  ((s.dropWhile isSpace).reverse.dropWhile isSpace).reverse

/-- Split at the first occurrence of a character; `none` when absent.
strings.SplitN(s, sep, 2) yields two parts exactly when this is `some`. -/
def splitFirst (sep : Char) : Str → Option (Str × Str)
  | [] => none
  | c :: rest =>
    if c = sep then some ([], rest)
    else (splitFirst sep rest).map (fun p => (c :: p.1, p.2))

/-- ASCII decimal digit test. -/
def isDigit (c : Char) : Bool := 48 ≤ c.toNat && c.toNat ≤ 57

/-- Accumulating decimal value of a digit string; `none` on a non-digit. -/
def digitsVal : Str → Nat → Option Nat
  | [], acc => some acc
  | c :: rest, acc =>
    if isDigit c then digitsVal rest (acc * 10 + (c.toNat - 48)) else none

/-- The unsigned part of strconv.Atoi: at least one digit, then the signed
64-bit range check. -/
def goAtoiCore (neg : Bool) (ds : Str) : Option Int :=
  match ds with
  | [] => none
  | _ :: _ =>
    match digitsVal ds 0 with
    | none => none
    | some n =>
      let v : Int := if neg then -(n : Int) else (n : Int)
      if -(2 ^ 63 : Int) ≤ v ∧ v < 2 ^ 63 then some v else none

/-- strconv.Atoi: optional sign, at least one digit, 64-bit range. -/
def goAtoi (s : Str) : Option Int :=
  match s with
  | [] => none
  | c :: rest =>
    if c = '-' then goAtoiCore true rest
    else if c = '+' then goAtoiCore false rest
    else goAtoiCore false (c :: rest)

/-- Decimal digits of a natural number, fuel-indexed to stay structural. -/
def showNatAux : Nat → Nat → Str
  | 0, _ => []
  | fuel + 1, n =>
    if n < 10 then [Nat.digitChar n]
    else showNatAux fuel (n / 10) ++ [Nat.digitChar (n % 10)]

/-- Decimal rendering of a natural number. -/
def showNat (n : Nat) : Str := showNatAux (n + 1) n

/-- fmt %d on an integer. -/
def showInt (i : Int) : Str :=
  if i < 0 then '-' :: showNat (-i).toNat else showNat i.toNat

/-- strings.Join(_, newline). -/
def joinNL : List Str → Str
  | [] => []
  | [l] => l
  | l :: l2 :: rest => l ++ '\n' :: joinNL (l2 :: rest)

/-- bufio line structure of a byte stream: the complete (newline-terminated)
lines, without their terminators, and the trailing incomplete remainder. -/
def splitLinesGo : Str → List Str × Str
  | [] => ([], [])
  | c :: rest =>
    if c = '\n' then ([] :: (splitLinesGo rest).1, (splitLinesGo rest).2)
    else
      match splitLinesGo rest with
      | ([], r) => ([], c :: r)
      | (l :: ls, r) => ((c :: l) :: ls, r)

/-- The complete lines available to repeated bufio ReadString calls. -/
def goLines (s : Str) : List Str := (splitLinesGo s).1

/-- Byte-wise (ordinal) string comparison, as Go compares strings;
UTF-8 makes byte order and codepoint order agree. -/
def strLE : Str → Str → Bool
  | [], _ => true
  | _ :: _, [] => false
  | a :: as, b :: bs =>
    if a.toNat < b.toNat then true
    else if b.toNat < a.toNat then false
    else strLE as bs

/-- The ordering used by sort.Strings, as a proposition. -/
def byteLE (a b : Str) : Prop := strLE a b = true

instance : DecidableRel byteLE := fun a b => inferInstanceAs (Decidable (strLE a b = true))

/-- The leftmost-first replacement performed by newlineRegexp
(`\r?\n` ↦ the two characters backslash and n) in Message.String. -/
def escapeNewlines : Str → Str
  | [] => []
  | [c] => if c = '\n' then ['\\', 'n'] else [c]
  | c :: c2 :: rest =>
    if c = '\r' ∧ c2 = '\n' then '\\' :: 'n' :: escapeNewlines rest
    else if c = '\n' then '\\' :: 'n' :: escapeNewlines (c2 :: rest)
    else c :: escapeNewlines (c2 :: rest)

/-- strings.Replace(s, pat, repl, 1): replace the first occurrence only. -/
def replaceOnce (pat repl : Str) : Str → Str
  | [] => if pat.isPrefixOf ([] : Str) then repl else []
  | c :: rest =>
    if pat.isPrefixOf (c :: rest) then repl ++ (c :: rest).drop pat.length
    else c :: replaceOnce pat repl rest

/-- One protocol unit: status code, description, multi-valued fields.
The Go field map is modelled as an association list whose keys are
distinct (the Go map invariant). -/
structure AptMessage where
  code : Int
  description : Str
  fields : List (Str × List Str)
deriving DecidableEq

/-- Go map lookup (`fields[key]` with the ok flag). -/
def lookupField : List (Str × List Str) → Str → Option (List Str)
  | [], _ => none
  | (k', vs) :: rest, k => if k' = k then some vs else lookupField rest k

/-- The ordered value list under a key; empty when absent. -/
def getAll (fs : List (Str × List Str)) (k : Str) : List Str :=
  (lookupField fs k).getD []

/-- Message.Get: the first value for a key, or the empty string. -/
def AptMessage.Get (m : AptMessage) (k : Str) : Str :=
  match getAll m.fields k with
  | [] => []
  | v :: _ => v

/-- Appends a value under a key, creating the entry when absent
(`fields[key] = append(fields[key], value)`). -/
def appendField : List (Str × List Str) → Str → Str → List (Str × List Str)
  | [], k, v => [(k, [v])]
  | (k', vs) :: rest, k, v =>
    if k' = k then (k', vs ++ [v]) :: rest else (k', vs) :: appendField rest k v

/-- The field names of a message sorted as by sort.Strings. -/
def sortedKeys (m : AptMessage) : List Str :=
  List.insertionSort byteLE (m.fields.map Prod.fst)

/-- The (name, escaped value) pairs in the order Message.String emits them:
names in sorted order, values of a name in insertion order, newline
sequences in values escaped. -/
def emitPairs (m : AptMessage) : List (Str × Str) :=
  (sortedKeys m).flatMap (fun k => (getAll m.fields k).map (fun v => (k, escapeNewlines v)))

/-- Message.String: the canonical wire form. -/
def mString (m : AptMessage) : Str :=
  joinNL ([showInt m.code ++ ' ' :: m.description] ++
    (emitPairs m).map (fun p => p.1 ++ ':' :: ' ' :: p.2) ++ [[], []])

/-- new100Message (100 Capabilities). -/
def new100Message : AptMessage :=
  ⟨100, str "Capabilities", [(str "Send-Config", [str "true"]), (str "Version", [str "1.0"])]⟩

/-- new101Message (101 Log). -/
def new101Message (msg : Str) : AptMessage :=
  ⟨101, str "Log", [(str "Message", [msg])]⟩

/-- new200Message (200 URI Start). -/
def new200Message (uri size lastModified : Str) : AptMessage :=
  ⟨200, str "URI Start",
    [(str "URI", [uri]), (str "Size", [size])] ++
    (if lastModified ≠ [] then [(str "Last-Modified", [lastModified])] else []) ++
    [(str "Resume-Point", [str "0"])]⟩

/-- new201Message (201 URI Done). -/
def new201Message (uri size lastModified md5Hash filename : Str) (imsHit : Bool) : AptMessage :=
  ⟨201, str "URI Done",
    [(str "URI", [uri]), (str "Last-Modified", [lastModified]), (str "Filename", [filename])] ++
    (if imsHit then [(str "IMS-Hit", [str "true"])]
     else [(str "Size", [size]), (str "MD5-Hash", [md5Hash])])⟩

/-- new400Message (400 URI Failure). -/
def new400Message (uri msg : Str) : AptMessage :=
  ⟨400, str "URI Failure", [(str "URI", [uri]), (str "Message", [msg])]⟩

/-- new401Message (401 General Failure). -/
def new401Message (msg : Str) : AptMessage :=
  ⟨401, str "General Failure", [(str "Message", [msg])]⟩

/-- The errors the reader can signal.  `eof` stands for the error of a
ReadString call that found no newline (end of input); `emptyMessage` is the
errEmptyMessage sentinel ("Empty message"). -/
inductive ReadErr where
  | eof
  | emptyMessage
  | emptyHeader
  | doubleHeader
  | malformedHeaderParts
  | malformedHeaderCode
  | emptyField
  | malformedFieldParts
  | malformedFieldEmpty
deriving DecidableEq

/-- AptMessageReader.parseHeader. -/
def parseHeaderFn (m : AptMessage) (line : Str) : Except ReadErr AptMessage :=
  if line = [] then .error .emptyHeader
  else if m.code ≠ 0 ∨ m.description ≠ [] then .error .doubleHeader
  else
    match splitFirst ' ' (trimSpace line) with
    | none => .error .malformedHeaderParts
    | some p =>
      match goAtoi (trimSpace p.1) with
      | none => .error .malformedHeaderCode
      | some code => .ok { m with code := code, description := trimSpace p.2 }

/-- AptMessageReader.parseField. -/
def parseFieldFn (m : AptMessage) (line : Str) : Except ReadErr AptMessage :=
  if line = [] then .error .emptyField
  else
    match splitFirst ':' (trimSpace line) with
    | none => .error .malformedFieldParts
    | some p =>
      let key := trimSpace p.1
      let value := trimSpace p.2
      if key = [] ∨ value = [] then .error .malformedFieldEmpty
      else .ok { m with fields := appendField m.fields key value }

/-- Outcome of one ReadMessage call: a complete message, or an error; both
carry the reader state left behind (the in-progress message pointer and the
unconsumed lines). -/
inductive ReadResult where
  | ok (m : AptMessage) (rest : List Str)
  | err (e : ReadErr) (pending : Option AptMessage) (rest : List Str)
deriving DecidableEq

/-- AptMessageReader.ReadMessage, on the line structure of the stream:
reads lines until a blank line completes the in-progress message. -/
def readMessageLines : Option AptMessage → List Str → ReadResult
  | pending, [] => .err .eof pending []
  | pending, line :: rest =>
    let l := trimSpace line
    if l = [] then
      match pending with
      | none => .err .emptyMessage none rest
      | some m => .ok m rest
    else
      match pending with
      | none =>
        match parseHeaderFn ⟨0, [], []⟩ l with
        | .error e => .err e (some ⟨0, [], []⟩) rest
        | .ok m => readMessageLines (some m) rest
      | some m =>
        match parseFieldFn m l with
        | .error e => .err e (some m) rest
        | .ok m' => readMessageLines (some m') rest

/-- An HTTP request as built by handleAcquire: GET, a URL, and the optional
If-Modified-Since header. -/
structure HttpRequest where
  url : Str
  ifModifiedSince : Option Str
deriving DecidableEq

/-- The parts of an HTTP response the method reads. -/
structure HttpResponse where
  statusCode : Int
  contentLength : Str
  lastModified : Str
  body : Str
deriving DecidableEq

/-- Observable calls to the external collaborators. -/
inductive ExtCall where
  | http (req : HttpRequest)
  | download (body : Str) (filename : Str)
deriving DecidableEq

/-- aptMethodConfig. -/
structure MethodConfig where
  serviceAccountJSON : Str := []
  serviceAccountEmail : Str := []
  debug : Bool := false
deriving DecidableEq

/-- The mutable method state: the configuration and whether the lazy
credentialed client has been created. -/
structure MethodState where
  config : MethodConfig
  clientUp : Bool
deriving DecidableEq

/-- The external collaborators (credential resolution, request construction,
the HTTP round trip, the debug dumpers, the downloader), as oracles. -/
structure Env where
  initCred : MethodConfig → Except Str Unit
  newReqOk : Str → Bool
  doReq : HttpRequest → Except Str HttpResponse
  dumpRequest : HttpRequest → Option Str
  dumpResponse : HttpResponse → Option Str
  downloadImpl : Str → Str → Except Str Str

/-- initClient: memoized; on first use resolves a credential source from the
configuration (JSON path, else email, else ambient default — abstracted into
the `initCred` oracle). -/
def initClientModel (env : Env) (st : MethodState) : Except Str MethodState :=
  if st.clientUp then .ok st
  else
    match env.initCred st.config with
    | .error e => .error e
    | .ok _ => .ok { st with clientUp := true }

/-- The 101 Log message a debug dump produces, when debug is on and the dump
succeeded. -/
def logList (debugOn : Bool) (dump : Option Str) : List AptMessage :=
  if debugOn then
    match dump with
    | some d => [new101Message d]
    | none => []
  else []

/-- Result of handleAcquire: the updated state, the outbound messages written,
and the external calls issued, each in order. -/
structure AcqResult where
  state : MethodState
  out : List AptMessage
  calls : List ExtCall
deriving DecidableEq

/-- Method.handleAcquire. -/
def handleAcquire (env : Env) (st : MethodState) (msg : AptMessage) : AcqResult :=
  let uri := msg.Get (str "URI")
  if uri = [] then
    ⟨st, [new401Message (str "no URI provided in Acquire message")], []⟩
  else
    let filename := msg.Get (str "Filename")
    if filename = [] then
      ⟨st, [new400Message uri (str "no filename provided in Acquire message")], []⟩
    else
      let ifModifiedSince := msg.Get (str "Last-Modified")
      match initClientModel env st with
      | .error e => ⟨st, [new400Message uri e], []⟩
      | .ok st1 =>
        let realuri := replaceOnce (str "ar+https") (str "https") uri
        if env.newReqOk realuri = false then ⟨st1, [], []⟩
        else
          let req : HttpRequest :=
            ⟨realuri, if ifModifiedSince = [] then none else some ifModifiedSince⟩
          let dbg1 := logList st1.config.debug (env.dumpRequest req)
          match env.doReq req with
          | .error e => ⟨st1, dbg1 ++ [new400Message uri e], [.http req]⟩
          | .ok resp =>
            let dbg2 := logList st1.config.debug (env.dumpResponse resp)
            let size := resp.contentLength
            let lastModified := resp.lastModified
            if resp.statusCode = 200 then
              match env.downloadImpl resp.body filename with
              | .error e =>
                ⟨st1, dbg1 ++ dbg2 ++ [new200Message uri size lastModified, new400Message uri e],
                  [.http req, .download resp.body filename]⟩
              | .ok md5Hash =>
                ⟨st1, dbg1 ++ dbg2 ++
                    [new200Message uri size lastModified,
                     new201Message uri size lastModified md5Hash filename false],
                  [.http req, .download resp.body filename]⟩
            else if resp.statusCode = 304 then
              ⟨st1, dbg1 ++ dbg2 ++ [new201Message uri size lastModified [] filename true],
                [.http req]⟩
            else
              ⟨st1, dbg1 ++ dbg2 ++
                  [new400Message uri (str "error downloading: code " ++ showInt resp.statusCode)],
                [.http req]⟩

/-- Ported apt StringToBool: integers mean `1` and only `1`; otherwise a
lower-cased membership test in the literal truthy set. -/
def stringToBool (s : Str) : Bool :=
  match goAtoi s with
  | some i => i = 1
  | none =>
    let sl := s.map Char.toLower
    sl = str "yes" ∨ sl = str "true" ∨ sl = str "with" ∨ sl = str "on" ∨ sl = str "enable"

/-- The Config-Item loop of handleConfigure: applies recognised keys in order;
on the first item without an equals sign it stops, reporting the log text of
that malformed item (the early return skips the rest of the message,
including the precedence enforcement). -/
def applyConfigItems (cfg : MethodConfig) : List Str → MethodConfig × Option Str
  | [] => (cfg, none)
  | item :: rest =>
    match splitFirst '=' item with
    | none => (cfg, some (str "malformed config item: " ++ item))
    | some p =>
      let cfg' :=
        if p.1 = str "Acquire::gar::Service-Account-JSON" then
          { cfg with serviceAccountJSON := trimSpace p.2 }
        else if p.1 = str "Acquire::gar::Service-Account-Email" then
          { cfg with serviceAccountEmail := trimSpace p.2 }
        else if p.1 = str "Debug::Acquire::gar" then
          { cfg with debug := stringToBool (trimSpace p.2) }
        else cfg
      applyConfigItems cfg' rest

/-- Method.handleConfigure: processes the repeated Config-Item field and then
enforces that a non-empty JSON path clears the email. -/
def handleConfigure (st : MethodState) (msg : AptMessage) : MethodState × List AptMessage :=
  match lookupField msg.fields (str "Config-Item") with
  | none => (st, [])
  | some configs =>
    match applyConfigItems st.config configs with
    | (cfg1, some logText) => ({ st with config := cfg1 }, [new101Message logText])
    | (cfg1, none) =>
      let cfg2 :=
        if cfg1.serviceAccountJSON ≠ [] then { cfg1 with serviceAccountEmail := [] } else cfg1
      ({ st with config := cfg2 }, [])

/-- The receive loop of Method.Run flattened over the line structure of the
input: reads messages exactly as ReadMessage does, dispatches 600 to
handleAcquire and 601 to handleConfigure, answers any other code with a
General Failure; an errEmptyMessage read is skipped, end of input ends the
run successfully, and any other read error ends it with that error. -/
def runLines (env : Env) (st : MethodState) (pending : Option AptMessage) :
    List Str → List AptMessage × Option ReadErr
  | [] => ([], none)
  | line :: rest =>
    let l := trimSpace line
    if l = [] then
      match pending with
      | none => runLines env st none rest
      | some msg =>
        if msg.code = 600 then
          let r := handleAcquire env st msg
          let res := runLines env r.state none rest
          (r.out ++ res.1, res.2)
        else if msg.code = 601 then
          let r := handleConfigure st msg
          let res := runLines env r.1 none rest
          (r.2 ++ res.1, res.2)
        else
          let res := runLines env st none rest
          (new401Message (str "Unsupported message code " ++ showInt msg.code ++
            str " received from apt") :: res.1, res.2)
    else
      match pending with
      | none =>
        match parseHeaderFn ⟨0, [], []⟩ l with
        | .error e => ([], some e)
        | .ok m => runLines env st (some m) rest
      | some m =>
        match parseFieldFn m l with
        | .error e => ([], some e)
        | .ok m' => runLines env st (some m') rest

/-- Method.Run: send Capabilities, then run the receive loop over the input
stream. -/
def runMethod (env : Env) (st : MethodState) (input : Str) :
    List AptMessage × Option ReadErr :=
  let res := runLines env st none (goLines input)
  (new100Message :: res.1, res.2)

/-! ### Whitespace-trimming lemmas -/

theorem mem_of_getLast? {c : Char} : ∀ {s : Str}, s.getLast? = some c → c ∈ s
  | [a], h => by simp [List.getLast?] at h; simp [h]
  | a :: b :: t, h => by
    rw [List.getLast?_cons_cons] at h
    exact List.mem_cons_of_mem a (mem_of_getLast? h)

theorem dropWhile_eq_self_of_head (p : Char → Bool) (s : Str)
    (h : ∀ c, s.head? = some c → p c = false) : s.dropWhile p = s := by
  cases s with
  | nil => rfl
  | cons c t =>
    rw [List.dropWhile_cons, if_neg (by simp [h c rfl])]

theorem trim_fix_of (s : Str)
    (h1 : ∀ c, s.head? = some c → isSpace c = false)
    (h2 : ∀ c, s.getLast? = some c → isSpace c = false) :
    trimSpace s = s := by
  unfold trimSpace
  rw [dropWhile_eq_self_of_head _ _ h1]
  rw [dropWhile_eq_self_of_head _ _ (by
    intro c hc
    rw [List.head?_reverse] at hc
    exact h2 c hc)]
  exact List.reverse_reverse s

theorem trim_fix_of_all (s : Str) (h : ∀ c ∈ s, isSpace c = false) : trimSpace s = s := by
  refine trim_fix_of s (fun c hc => ?_) (fun c hc => h c (mem_of_getLast? hc))
  cases s with
  | nil => simp at hc
  | cons a t =>
    simp only [List.head?_cons, Option.some.injEq] at hc
    exact hc ▸ h a (List.mem_cons_self a t)

theorem dropWhile_eq_self_of_trim_fix (s : Str) (h : trimSpace s = s) :
    s.dropWhile isSpace = s := by
  have h1 : (trimSpace s).length ≤ (s.dropWhile isSpace).length := by
    unfold trimSpace
    rw [List.length_reverse]
    calc ((s.dropWhile isSpace).reverse.dropWhile isSpace).length
        ≤ (s.dropWhile isSpace).reverse.length := (List.dropWhile_sublist _).length_le
      _ = (s.dropWhile isSpace).length := List.length_reverse _
  have h2 : (s.dropWhile isSpace).length ≤ s.length := (List.dropWhile_sublist _).length_le
  rw [h] at h1
  exact (List.dropWhile_sublist isSpace).eq_of_length (le_antisymm h2 h1)

theorem trim_head_nonspace (s : Str) (h : trimSpace s = s) :
    ∀ c, s.head? = some c → isSpace c = false := by
  intro c hc
  have hd := dropWhile_eq_self_of_trim_fix s h
  cases s with
  | nil => simp at hc
  | cons a t =>
    simp only [List.head?_cons, Option.some.injEq] at hc
    subst hc
    rw [List.dropWhile_cons] at hd
    by_contra hsp
    rw [Bool.not_eq_false] at hsp
    rw [if_pos hsp] at hd
    have hlen := congrArg List.length hd
    have hle := (List.dropWhile_sublist (l := t) isSpace).length_le
    simp only [List.length_cons] at hlen
    omega

theorem trim_last_nonspace (s : Str) (h : trimSpace s = s) :
    ∀ c, s.getLast? = some c → isSpace c = false := by
  intro c hc
  have hd := dropWhile_eq_self_of_trim_fix s h
  have h2 : (s.reverse.dropWhile isSpace).reverse = s := by
    have he : trimSpace s = (s.reverse.dropWhile isSpace).reverse := by
      unfold trimSpace; rw [hd]
    rw [← he, h]
  have h3 : s.reverse.dropWhile isSpace = s.reverse := by
    have hrr := congrArg List.reverse h2
    simpa using hrr
  rw [← List.head?_reverse] at hc
  cases hrev : s.reverse with
  | nil => rw [hrev] at hc; simp at hc
  | cons a t =>
    rw [hrev] at hc h3
    simp only [List.head?_cons, Option.some.injEq] at hc
    subst hc
    rw [List.dropWhile_cons] at h3
    by_contra hsp
    rw [Bool.not_eq_false] at hsp
    rw [if_pos hsp] at h3
    have hlen := congrArg List.length h3
    have hle := (List.dropWhile_sublist (l := t) isSpace).length_le
    simp only [List.length_cons] at hlen
    omega

theorem trimSpace_cons_space (v : Str) : trimSpace (' ' :: v) = trimSpace v := by
  unfold trimSpace
  rw [List.dropWhile_cons, if_pos (by decide)]

theorem mem_of_mem_trimSpace {c : Char} {s : Str} (h : c ∈ trimSpace s) : c ∈ s := by
  unfold trimSpace at h
  rw [List.mem_reverse] at h
  have h2 := (List.dropWhile_sublist isSpace).subset h
  rw [List.mem_reverse] at h2
  exact (List.dropWhile_sublist isSpace).subset h2

/-! ### splitFirst lemmas -/

theorem splitFirst_eq_none_iff (sep : Char) (s : Str) :
    splitFirst sep s = none ↔ sep ∉ s := by
  induction s with
  | nil => simp [splitFirst]
  | cons c rest ih =>
    by_cases hc : c = sep
    · subst hc; simp [splitFirst]
    · simp only [splitFirst, if_neg hc, Option.map_eq_none', ih, List.mem_cons]
      constructor
      · intro h hmem
        rcases hmem with h1 | h2
        · exact hc h1.symm
        · exact h h2
      · intro h h2
        exact h (Or.inr h2)

theorem splitFirst_append (sep : Char) (a b : Str) (h : sep ∉ a) :
    splitFirst sep (a ++ sep :: b) = some (a, b) := by
  induction a with
  | nil => simp [splitFirst]
  | cons c t ih =>
    have hc : ¬ c = sep := fun e => h (e ▸ List.mem_cons_self c t)
    rw [List.cons_append, splitFirst, if_neg hc,
      ih (fun hm => h (List.mem_cons_of_mem c hm))]
    rfl

/-! ### Decimal rendering and parsing lemmas -/

theorem digitChar_spec (d : Nat) (h : d < 10) :
    isDigit (Nat.digitChar d) = true ∧ (Nat.digitChar d).toNat = 48 + d := by
  interval_cases d <;> exact ⟨by decide, by decide⟩

theorem digitsVal_append (a b : Str) (acc : Nat) :
    digitsVal (a ++ b) acc =
      match digitsVal a acc with
      | none => none
      | some m => digitsVal b m := by
  induction a generalizing acc with
  | nil => simp [digitsVal]
  | cons c t ih =>
    simp only [List.cons_append, digitsVal, List.append_eq]
    by_cases hd : isDigit c
    · rw [if_pos hd, if_pos hd, ih]
    · rw [if_neg hd, if_neg hd]

theorem showNatAux_spec (fuel : Nat) : ∀ (n acc : Nat), n < fuel →
    digitsVal (showNatAux fuel n) acc = some (acc * 10 ^ (showNatAux fuel n).length + n) := by
  induction fuel with
  | zero => intro n acc h; omega
  | succ f ih =>
    intro n acc h
    simp only [showNatAux]
    by_cases h10 : n < 10
    · rw [if_pos h10]
      have hd := (digitChar_spec n h10).1
      have hv := (digitChar_spec n h10).2
      simp [digitsVal, hd, hv]
    · rw [if_neg h10]
      rw [digitsVal_append]
      have hfd : n / 10 < f := by omega
      rw [ih (n / 10) acc hfd]
      have hd := (digitChar_spec (n % 10) (Nat.mod_lt _ (by norm_num))).1
      have hv := (digitChar_spec (n % 10) (Nat.mod_lt _ (by norm_num))).2
      simp only [digitsVal, if_pos hd, hv, List.length_append, List.length_singleton]
      congr 1
      have hdm : n / 10 * 10 + n % 10 = n := by omega
      calc (acc * 10 ^ (showNatAux f (n / 10)).length + n / 10) * 10 + (48 + n % 10 - 48)
          = acc * (10 ^ (showNatAux f (n / 10)).length * 10) + (n / 10 * 10 + n % 10) := by
            have hs : 48 + n % 10 - 48 = n % 10 := by omega
            rw [hs]; ring
        _ = acc * 10 ^ ((showNatAux f (n / 10)).length + 1) + n := by
            rw [pow_succ, hdm]

theorem digitsVal_showNat (n : Nat) : digitsVal (showNat n) 0 = some n := by
  have h := showNatAux_spec (n + 1) n 0 (by omega)
  simpa using h

theorem showNat_ne_nil (n : Nat) : showNat n ≠ [] := by
  unfold showNat showNatAux
  by_cases h : n < 10 <;> simp [h]

theorem showNatAux_chars (fuel : Nat) : ∀ n, n < fuel →
    ∀ c ∈ showNatAux fuel n, isDigit c = true := by
  induction fuel with
  | zero => intro n h; omega
  | succ f ih =>
    intro n h c hc
    simp only [showNatAux] at hc
    by_cases h10 : n < 10
    · rw [if_pos h10] at hc
      simp only [List.mem_singleton] at hc
      subst hc
      exact (digitChar_spec n h10).1
    · rw [if_neg h10] at hc
      rw [List.mem_append] at hc
      rcases hc with hc | hc
      · exact ih (n / 10) (by omega) c hc
      · simp only [List.mem_singleton] at hc
        subst hc
        exact (digitChar_spec (n % 10) (Nat.mod_lt _ (by norm_num))).1

theorem showInt_chars (i : Int) : ∀ c ∈ showInt i, isDigit c = true ∨ c = '-' := by
  intro c hc
  unfold showInt at hc
  by_cases h : i < 0
  · rw [if_pos h] at hc
    rcases List.mem_cons.mp hc with h1 | h2
    · right; exact h1
    · left; exact showNatAux_chars _ _ (by omega) c h2
  · rw [if_neg h] at hc
    left; exact showNatAux_chars _ _ (by omega) c hc

theorem showInt_nonspace (i : Int) : ∀ c ∈ showInt i, isSpace c = false := by
  intro c hc
  rcases showInt_chars i c hc with h | h
  · simp only [isDigit, Bool.and_eq_true, decide_eq_true_eq] at h
    simp only [isSpace, Bool.or_eq_false_iff, decide_eq_false_iff_not]
    omega
  · subst h; decide

theorem showInt_ne_nil (i : Int) : showInt i ≠ [] := by
  unfold showInt
  by_cases h : i < 0
  · simp [h]
  · simp [h, showNat_ne_nil]

theorem space_not_mem_showInt (i : Int) : ' ' ∉ showInt i := by
  intro h
  exact absurd (showInt_nonspace i ' ' h) (by decide)

theorem newline_not_mem_showInt (i : Int) : '\n' ∉ showInt i := by
  intro h
  exact absurd (showInt_nonspace i '\n' h) (by decide)

theorem goAtoiCore_digits (neg : Bool) (c : Char) (t : Str)
    (n : Nat) (hv : digitsVal (c :: t) 0 = some n)
    (hb : -(2 ^ 63 : Int) ≤ (if neg then -(n : Int) else (n : Int)) ∧
      (if neg then -(n : Int) else (n : Int)) < 2 ^ 63) :
    goAtoiCore neg (c :: t) = some (if neg then -(n : Int) else (n : Int)) := by
  unfold goAtoiCore
  rw [hv]
  exact if_pos hb

theorem goAtoi_of_digits (c : Char) (t : Str) (hd : ∀ x ∈ c :: t, isDigit x = true)
    (n : Nat) (hv : digitsVal (c :: t) 0 = some n) (hn : (n : Int) < 2 ^ 63) :
    goAtoi (c :: t) = some (n : Int) := by
  have hdc := hd c (List.mem_cons_self c t)
  have hc1 : ¬ c = '-' := by
    intro e; subst e; revert hdc; decide
  have hc2 : ¬ c = '+' := by
    intro e; subst e; revert hdc; decide
  rw [goAtoi, if_neg hc1, if_neg hc2,
    goAtoiCore_digits false c t n hv
      ⟨le_trans (by norm_num) (Int.ofNat_nonneg n), hn⟩]
  rfl

theorem goAtoi_neg_digits (c : Char) (t : Str)
    (n : Nat) (hv : digitsVal (c :: t) 0 = some n) (hn : -(2 ^ 63 : Int) ≤ -(n : Int)) :
    goAtoi ('-' :: c :: t) = some (-(n : Int)) := by
  rw [goAtoi, if_pos rfl,
    goAtoiCore_digits true c t n hv
      ⟨hn, lt_of_le_of_lt (show -(n : Int) ≤ 0 by omega)
        (show (0 : Int) < 2 ^ 63 by norm_num)⟩]
  rfl

theorem goAtoi_showInt (i : Int) (hlo : -(2 ^ 63) ≤ i) (hhi : i < 2 ^ 63) :
    goAtoi (showInt i) = some i := by
  by_cases h : i < 0
  · have hm : ((-i).toNat : Int) = -i := Int.toNat_of_nonneg (by omega)
    rw [showInt, if_pos h]
    cases hsn : showNat (-i).toNat with
    | nil => exact absurd hsn (showNat_ne_nil _)
    | cons a t =>
      have hv : digitsVal (a :: t) 0 = some (-i).toNat := by
        rw [← hsn]; exact digitsVal_showNat _
      rw [goAtoi_neg_digits a t _ hv (by rw [hm]; omega), hm, neg_neg]
  · have hm : (i.toNat : Int) = i := Int.toNat_of_nonneg (by omega)
    rw [showInt, if_neg h]
    cases hsn : showNat i.toNat with
    | nil => exact absurd hsn (showNat_ne_nil _)
    | cons a t =>
      have hv : digitsVal (a :: t) 0 = some i.toNat := by
        rw [← hsn]; exact digitsVal_showNat _
      have hdall : ∀ x ∈ a :: t, isDigit x = true := by
        rw [← hsn]
        unfold showNat
        exact showNatAux_chars _ _ (by omega)
      rw [goAtoi_of_digits a t hdall _ hv (by rw [hm]; exact hhi), hm]

/-! ### Newline-escaping lemmas -/

theorem escapeNewlines_eq_self : ∀ (v : Str), '\n' ∉ v → escapeNewlines v = v
  | [], _ => rfl
  | [c], h => by
    have hc : ¬ c = '\n' := fun e => h (e ▸ List.mem_cons_self c [])
    simp [escapeNewlines, hc]
  | c :: c2 :: rest, h => by
    have hc : ¬ c = '\n' := fun e => h (e ▸ List.mem_cons_self c (c2 :: rest))
    have hc2 : '\n' ∉ c2 :: rest := fun hm => h (List.mem_cons_of_mem c hm)
    have hcc : ¬ (c = '\r' ∧ c2 = '\n') := by
      rintro ⟨h1, h2⟩
      exact hc2 (h2 ▸ List.mem_cons_self c2 rest)
    rw [escapeNewlines, if_neg hcc, if_neg hc, escapeNewlines_eq_self (c2 :: rest) hc2]

theorem newline_not_mem_escape : ∀ (v : Str), '\n' ∉ escapeNewlines v
  | [] => by simp [escapeNewlines]
  | [c] => by
    by_cases hc : c = '\n'
    · simp [escapeNewlines, hc]
    · simp [escapeNewlines, hc]
      exact fun e => hc e.symm
  | c :: c2 :: rest => by
    rw [escapeNewlines]
    by_cases hcc : c = '\r' ∧ c2 = '\n'
    · rw [if_pos hcc]
      intro hm
      rcases List.mem_cons.mp hm with h1 | hm2
      · exact absurd h1 (by decide)
      rcases List.mem_cons.mp hm2 with h2 | hm3
      · exact absurd h2 (by decide)
      · exact newline_not_mem_escape rest hm3
    · rw [if_neg hcc]
      by_cases hc : c = '\n'
      · rw [if_pos hc]
        intro hm
        rcases List.mem_cons.mp hm with h1 | hm2
        · exact absurd h1 (by decide)
        rcases List.mem_cons.mp hm2 with h2 | hm3
        · exact absurd h2 (by decide)
        · exact newline_not_mem_escape (c2 :: rest) hm3
      · rw [if_neg hc]
        intro hm
        rcases List.mem_cons.mp hm with h1 | hm2
        · exact hc h1.symm
        · exact newline_not_mem_escape (c2 :: rest) hm2

/-! ### Line-splitting and joining lemmas -/

theorem splitLinesGo_cons_line (l t : Str) (h : '\n' ∉ l) :
    splitLinesGo (l ++ '\n' :: t) = (l :: (splitLinesGo t).1, (splitLinesGo t).2) := by
  induction l with
  | nil => simp [splitLinesGo]
  | cons c cs ih =>
    have hc : ¬ c = '\n' := fun e => h (e ▸ List.mem_cons_self c cs)
    have h2 : '\n' ∉ cs := fun hm => h (List.mem_cons_of_mem c hm)
    rw [List.cons_append, splitLinesGo, if_neg hc, ih h2]

theorem splitLinesGo_joinNL (ls : List Str) (h : ∀ l ∈ ls, '\n' ∉ l) :
    splitLinesGo (joinNL (ls ++ [[]])) = (ls, []) := by
  induction ls with
  | nil => simp [joinNL, splitLinesGo]
  | cons l rest ih =>
    cases hrr : rest ++ [[]] with
    | nil => simp at hrr
    | cons r1 r2 =>
      have hj : joinNL ((l :: rest) ++ [[]]) = l ++ '\n' :: joinNL (rest ++ [[]]) := by
        rw [List.cons_append, hrr]
        rfl
      rw [hj, splitLinesGo_cons_line l _ (h l (List.mem_cons_self l rest)),
        ih (fun x hx => h x (List.mem_cons_of_mem l hx))]

/-! ### Field-map lemmas -/

theorem getAll_nil (k : Str) : getAll [] k = [] := rfl

theorem getAll_cons (k0 : Str) (vs : List Str) (rest : List (Str × List Str)) (k : Str) :
    getAll ((k0, vs) :: rest) k = if k0 = k then vs else getAll rest k := by
  by_cases h : k0 = k <;> simp [getAll, lookupField, h]

theorem getAll_eq_nil_of_not_mem (fs : List (Str × List Str)) (k : Str)
    (h : k ∉ fs.map Prod.fst) : getAll fs k = [] := by
  induction fs with
  | nil => rfl
  | cons p rest ih =>
    obtain ⟨k0, vs⟩ := p
    rw [getAll_cons]
    rw [List.map_cons, List.mem_cons] at h
    rw [if_neg (fun e => h (Or.inl e.symm))]
    exact ih (fun hm => h (Or.inr hm))

theorem mem_fields_of_getAll (fs : List (Str × List Str)) (k : Str)
    (h : k ∈ fs.map Prod.fst) : (k, getAll fs k) ∈ fs := by
  induction fs with
  | nil => simp at h
  | cons p rest ih =>
    obtain ⟨k0, vs⟩ := p
    rw [getAll_cons]
    by_cases he : k0 = k
    · subst he
      rw [if_pos rfl]
      exact List.mem_cons_self _ _
    · rw [if_neg he]
      rw [List.map_cons, List.mem_cons] at h
      rcases h with h | h
      · exact absurd h.symm he
      · exact List.mem_cons_of_mem _ (ih h)

theorem getAll_appendField (fs : List (Str × List Str)) (k v k' : Str) :
    getAll (appendField fs k v) k' =
      if k = k' then getAll fs k' ++ [v] else getAll fs k' := by
  induction fs with
  | nil =>
    rw [appendField, getAll_cons, getAll_nil]
    by_cases h : k = k' <;> simp [h]
  | cons p rest ih =>
    obtain ⟨k0, vs⟩ := p
    rw [appendField]
    by_cases h0 : k0 = k
    · subst h0
      rw [if_pos rfl, getAll_cons, getAll_cons]
      by_cases h' : k0 = k'
      · rw [if_pos h', if_pos h', if_pos h']
      · rw [if_neg h', if_neg h', if_neg h']
    · rw [if_neg h0, getAll_cons, getAll_cons]
      by_cases h' : k0 = k'
      · subst h'
        rw [if_pos rfl, if_pos rfl, if_neg (fun e => h0 e.symm)]
      · rw [if_neg h', if_neg h', ih]

/-- The reader accumulates fields by left-folding appendField. -/
def foldFields (fs : List (Str × List Str)) (ps : List (Str × Str)) : List (Str × List Str) :=
  ps.foldl (fun acc p => appendField acc p.1 p.2) fs

theorem foldFields_nil (fs : List (Str × List Str)) : foldFields fs [] = fs := rfl

theorem foldFields_cons (fs : List (Str × List Str)) (p : Str × Str) (ps : List (Str × Str)) :
    foldFields fs (p :: ps) = foldFields (appendField fs p.1 p.2) ps := rfl

theorem getAll_foldFields (ps : List (Str × Str)) (fs : List (Str × List Str)) (k : Str) :
    getAll (foldFields fs ps) k =
      getAll fs k ++ (ps.filter (fun p => decide (p.1 = k))).map Prod.snd := by
  induction ps generalizing fs with
  | nil => simp [foldFields]
  | cons p rest ih =>
    rw [foldFields_cons, ih, getAll_appendField, List.filter_cons]
    by_cases h : p.1 = k
    · rw [if_pos h, if_pos (by simp [h])]
      simp
    · rw [if_neg h, if_neg (by simp [h])]

/-! ### Emission-order lemmas -/

theorem filter_emit (g : Str → List Str) (k : Str) : ∀ (ks : List Str), ks.Nodup →
    (((ks.flatMap (fun k0 => (g k0).map (fun v => (k0, v)))).filter
        (fun p => decide (p.1 = k))).map Prod.snd)
      = if k ∈ ks then g k else []
  | [], _ => by simp
  | k0 :: rest, hnd => by
    have hnd2 := List.nodup_cons.mp hnd
    rw [List.flatMap_cons, List.filter_append, List.map_append,
      filter_emit g k rest hnd2.2]
    by_cases h : k0 = k
    · subst h
      have h1 : ((g k0).map (fun v => (k0, v))).filter (fun p => decide (p.1 = k0)) =
          (g k0).map (fun v => (k0, v)) := by
        rw [List.filter_eq_self]
        intro p hp
        rcases List.mem_map.mp hp with ⟨v, hv, rfl⟩
        simp
      rw [h1, if_neg hnd2.1, if_pos (List.mem_cons_self k0 rest), List.append_nil,
        List.map_map]
      simp
    · have h1 : ((g k0).map (fun v => (k0, v))).filter (fun p => decide (p.1 = k)) = [] := by
        rw [List.filter_eq_nil_iff]
        intro p hp
        rcases List.mem_map.mp hp with ⟨v, hv, rfl⟩
        simp [h]
      rw [h1]
      simp [List.mem_cons, (show ¬ k = k0 from fun e => h e.symm)]

theorem strLE_refl : ∀ (s : Str), strLE s s = true
  | [] => rfl
  | c :: t => by
    rw [strLE, if_neg (lt_irrefl _), if_neg (lt_irrefl _)]
    exact strLE_refl t

theorem strLE_total : ∀ (a b : Str), strLE a b = true ∨ strLE b a = true
  | [], _ => Or.inl rfl
  | _ :: _, [] => Or.inr rfl
  | a :: as, b :: bs => by
    rw [strLE, strLE]
    rcases Nat.lt_trichotomy a.toNat b.toNat with h | h | h
    · left; rw [if_pos h]
    · rw [if_neg (by omega), if_neg (by omega), if_neg (by omega), if_neg (by omega)]
      exact strLE_total as bs
    · right; rw [if_pos h]

theorem strLE_trans : ∀ (a b c : Str),
    strLE a b = true → strLE b c = true → strLE a c = true
  | [], _, _, _, _ => rfl
  | a :: as, [], c, h1, _ => by rw [strLE] at h1; exact absurd h1 (by simp)
  | a :: as, b :: bs, [], _, h2 => by rw [strLE] at h2; exact absurd h2 (by simp)
  | a :: as, b :: bs, c :: cs, h1, h2 => by
    rw [strLE] at h1 h2 ⊢
    rcases Nat.lt_trichotomy a.toNat b.toNat with hab | hab | hab
    · rcases Nat.lt_trichotomy b.toNat c.toNat with hbc | hbc | hbc
      · rw [if_pos (by omega)]
      · rw [if_pos (by omega)]
      · rw [if_neg (by omega), if_pos hbc] at h2
        exact absurd h2 (by simp)
    · rcases Nat.lt_trichotomy b.toNat c.toNat with hbc | hbc | hbc
      · rw [if_pos (by omega)]
      · rw [if_neg (by omega), if_neg (by omega)]
        rw [if_neg (by omega), if_neg (by omega)] at h1
        rw [if_neg (by omega), if_neg (by omega)] at h2
        exact strLE_trans as bs cs h1 h2
      · rw [if_neg (by omega), if_pos hbc] at h2
        exact absurd h2 (by simp)
    · rw [if_neg (by omega), if_pos hab] at h1
      exact absurd h1 (by simp)

instance : IsTotal Str byteLE := ⟨fun a b => strLE_total a b⟩

instance : IsTrans Str byteLE := ⟨fun a b c => strLE_trans a b c⟩

theorem pairwise_of_rel_true {α : Type} {R : α → α → Prop} (h : ∀ a b, R a b) :
    ∀ l : List α, List.Pairwise R l
  | [] => List.Pairwise.nil
  | a :: t => List.Pairwise.cons (fun b _ => h a b) (pairwise_of_rel_true h t)

theorem pairwise_emit (g : Str → List Str) : ∀ (ks : List Str), List.Pairwise byteLE ks →
    List.Pairwise (fun p q : Str × Str => byteLE p.1 q.1)
      (ks.flatMap (fun k0 => (g k0).map (fun v => (k0, v))))
  | [], _ => by simp
  | k0 :: rest, hp => by
    have hp2 := List.pairwise_cons.mp hp
    rw [List.flatMap_cons, List.pairwise_append]
    refine ⟨?_, pairwise_emit g rest hp2.2, ?_⟩
    · rw [List.pairwise_map]
      exact pairwise_of_rel_true (fun a b => strLE_refl k0) _
    · intro p hp1 q hq
      rcases List.mem_map.mp hp1 with ⟨v, _, rfl⟩
      rcases List.mem_flatMap.mp hq with ⟨k1, hk1, hq1⟩
      rcases List.mem_map.mp hq1 with ⟨w, _, rfl⟩
      exact hp2.1 k1 hk1

/-- Does a name start with an upper-case ASCII letter? -/
def startsUpperAlpha (s : Str) : Bool :=
  match s with
  | [] => false
  | c :: _ => 65 ≤ c.toNat && c.toNat ≤ 90

/-- Does a name start with a lower-case ASCII letter? -/
def startsLowerAlpha (s : Str) : Bool :=
  match s with
  | [] => false
  | c :: _ => 97 ≤ c.toNat && c.toNat ≤ 122

theorem not_lower_before_upper (a b : Str) (hle : byteLE a b)
    (hla : startsLowerAlpha a = true) (hub : startsUpperAlpha b = true) : False := by
  cases a with
  | nil => simp [startsLowerAlpha] at hla
  | cons ca ta =>
    cases b with
    | nil => simp [startsUpperAlpha] at hub
    | cons cb tb =>
      simp only [startsLowerAlpha, Bool.and_eq_true, decide_eq_true_eq] at hla
      simp only [startsUpperAlpha, Bool.and_eq_true, decide_eq_true_eq] at hub
      unfold byteLE strLE at hle
      rw [if_neg (by omega), if_pos (by omega)] at hle
      exact absurd hle (by simp)

theorem emitPairs_eq (m : AptMessage) :
    emitPairs m = (sortedKeys m).flatMap
      (fun k => ((getAll m.fields k).map escapeNewlines).map (fun v => (k, v))) := by
  unfold emitPairs
  congr 1
  funext k
  rw [List.map_map]
  rfl

/-! ### Claim C3: parseHeader rejection conditions -/

/-- Claim C3: parseHeader returns an error for every line whose first
space-separated token is not an integer, for every line containing no space
separator, for the empty line, and whenever it is invoked against a message
whose code or description is already populated; in each such case the call
fails rather than populating the message. -/
theorem c3_parseHeader_rejections :
    (∀ m : AptMessage, ∃ e, parseHeaderFn m [] = .error e) ∧
    (∀ (m : AptMessage) (line : Str), ' ' ∉ line →
      ∃ e, parseHeaderFn m line = .error e) ∧
    (∀ (m : AptMessage) (line tok rest : Str),
      splitFirst ' ' (trimSpace line) = some (tok, rest) → goAtoi (trimSpace tok) = none →
      ∃ e, parseHeaderFn m line = .error e) ∧
    (∀ (m : AptMessage) (line : Str), m.code ≠ 0 ∨ m.description ≠ [] →
      ∃ e, parseHeaderFn m line = .error e) := by
  refine ⟨?_, ?_, ?_, ?_⟩
  · intro m
    exact ⟨.emptyHeader, by rw [parseHeaderFn, if_pos rfl]⟩
  · intro m line h
    unfold parseHeaderFn
    by_cases h0 : line = []
    · exact ⟨.emptyHeader, by rw [if_pos h0]⟩
    rw [if_neg h0]
    by_cases h1 : m.code ≠ 0 ∨ m.description ≠ []
    · exact ⟨.doubleHeader, by rw [if_pos h1]⟩
    rw [if_neg h1]
    have hs : splitFirst ' ' (trimSpace line) = none :=
      (splitFirst_eq_none_iff _ _).mpr (fun hm => h (mem_of_mem_trimSpace hm))
    rw [hs]
    exact ⟨.malformedHeaderParts, rfl⟩
  · intro m line tok rest hsplit hatoi
    unfold parseHeaderFn
    by_cases h0 : line = []
    · exact ⟨.emptyHeader, by rw [if_pos h0]⟩
    rw [if_neg h0]
    by_cases h1 : m.code ≠ 0 ∨ m.description ≠ []
    · exact ⟨.doubleHeader, by rw [if_pos h1]⟩
    rw [if_neg h1, hsplit]
    simp only [hatoi]
    exact ⟨.malformedHeaderCode, rfl⟩
  · intro m line h1
    unfold parseHeaderFn
    by_cases h0 : line = []
    · exact ⟨.emptyHeader, by rw [if_pos h0]⟩
    rw [if_neg h0, if_pos h1]
    exact ⟨.doubleHeader, rfl⟩

/-- Witness for C3 at the concrete inputs of the reader test table. -/
theorem c3_parseHeader_rejections_witness :
    (∃ e, parseHeaderFn ⟨0, [], []⟩ [] = .error e) ∧
    (∃ e, parseHeaderFn ⟨0, [], []⟩ (str "123FakeCode") = .error e) ∧
    (∃ e, parseHeaderFn ⟨0, [], []⟩ (str "Xxx Fake Code") = .error e) ∧
    (∃ e, parseHeaderFn ⟨123, [], []⟩ (str "600 URI Acquire") = .error e) :=
  ⟨c3_parseHeader_rejections.1 ⟨0, [], []⟩,
   c3_parseHeader_rejections.2.1 ⟨0, [], []⟩ (str "123FakeCode") (by decide),
   c3_parseHeader_rejections.2.2.1 ⟨0, [], []⟩ (str "Xxx Fake Code") (str "Xxx")
     (str "Fake Code") (by decide) (by decide),
   c3_parseHeader_rejections.2.2.2 ⟨123, [], []⟩ (str "600 URI Acquire")
     (Or.inl (by decide))⟩

/-! ### Claim C4: handleAcquire validation -/

/-- Claim C4: on a 600 message with empty or absent URI, handleAcquire writes
exactly one 401 General Failure (no URI Failure) and returns; with a URI but
empty or absent Filename it writes exactly one 400 URI Failure carrying that
URI and returns; in both cases no external call is issued. -/
theorem c4_acquire_validation (env : Env) (st : MethodState) (msg : AptMessage) :
    (msg.Get (str "URI") = [] →
      handleAcquire env st msg =
        ⟨st, [new401Message (str "no URI provided in Acquire message")], []⟩) ∧
    (msg.Get (str "URI") ≠ [] → msg.Get (str "Filename") = [] →
      handleAcquire env st msg =
        ⟨st, [new400Message (msg.Get (str "URI"))
          (str "no filename provided in Acquire message")], []⟩) := by
  constructor
  · intro h
    simp only [handleAcquire]
    rw [if_pos h]
  · intro h1 h2
    simp only [handleAcquire]
    rw [if_neg h1, if_pos h2]

/-- A concrete oracle environment for witnesses: credentials resolve, request
construction succeeds, every request receives a 304 response, the dumps fail,
the downloader succeeds. -/
def envW : Env :=
  ⟨fun _ => .ok (), fun _ => true, fun _ => .ok ⟨304, str "100", str "LM", str "B"⟩,
   fun _ => none, fun _ => none, fun _ _ => .ok (str "md5")⟩

/-- A concrete initial method state for witnesses. -/
def stW : MethodState := ⟨⟨[], [], false⟩, false⟩

/-- Witness for C4: a 600 message with no URI, and one with a URI but no
filename. -/
theorem c4_acquire_validation_witness :
    handleAcquire envW stW ⟨600, str "URI Acquire", []⟩ =
      ⟨stW, [new401Message (str "no URI provided in Acquire message")], []⟩ ∧
    handleAcquire envW stW ⟨600, str "URI Acquire", [(str "URI", [str "ar+https://h/p"])]⟩ =
      ⟨stW, [new400Message (str "ar+https://h/p")
        (str "no filename provided in Acquire message")], []⟩ :=
  ⟨(c4_acquire_validation envW stW ⟨600, str "URI Acquire", []⟩).1 (by decide),
   by
    have h := (c4_acquire_validation envW stW
      ⟨600, str "URI Acquire", [(str "URI", [str "ar+https://h/p"])]⟩).2
      (by decide) (by decide)
    rw [h]
    rfl⟩

/-! ### Claim C10: Get returns the first value -/

/-- Claim C10: Get returns the first value of the ordered value list, and the
empty string when the key is absent or its list is empty; appending a repeated
value leaves Get unchanged, and handleAcquire depends on its message only
through Get of URI, Filename and Last-Modified, so repeated fields act through
their first occurrence. -/
theorem c10_get_first_value :
    (∀ (m : AptMessage) (k : Str), m.Get k = ((getAll m.fields k).head?).getD []) ∧
    (∀ (fs : List (Str × List Str)) (c : Int) (d k v : Str), getAll fs k ≠ [] →
      AptMessage.Get ⟨c, d, appendField fs k v⟩ k = AptMessage.Get ⟨c, d, fs⟩ k) ∧
    (∀ (env : Env) (st : MethodState) (m1 m2 : AptMessage),
      m1.Get (str "URI") = m2.Get (str "URI") →
      m1.Get (str "Filename") = m2.Get (str "Filename") →
      m1.Get (str "Last-Modified") = m2.Get (str "Last-Modified") →
      handleAcquire env st m1 = handleAcquire env st m2) := by
  refine ⟨?_, ?_, ?_⟩
  · intro m k
    unfold AptMessage.Get
    cases getAll m.fields k <;> simp
  · intro fs c d k v h
    unfold AptMessage.Get
    simp only
    rw [getAll_appendField, if_pos rfl]
    cases hg : getAll fs k with
    | nil => exact absurd hg h
    | cons a t => simp
  · intro env st m1 m2 h1 h2 h3
    unfold handleAcquire
    simp only [h1, h2, h3]

/-- Witness for C10: a message carrying a repeated URI field. -/
theorem c10_get_first_value_witness :
    AptMessage.Get ⟨600, [], [(str "URI", [str "u1", str "u2"])]⟩ (str "URI") =
      ((getAll [(str "URI", [str "u1", str "u2"])] (str "URI")).head?).getD [] ∧
    AptMessage.Get ⟨600, [], appendField [(str "URI", [str "u1"])] (str "URI") (str "u2")⟩
        (str "URI") =
      AptMessage.Get ⟨600, [], [(str "URI", [str "u1"])]⟩ (str "URI") ∧
    handleAcquire envW stW
        ⟨600, str "URI Acquire",
          [(str "URI", [str "u1", str "u2"]), (str "Filename", [str "/f"])]⟩ =
      handleAcquire envW stW
        ⟨600, str "URI Acquire", [(str "URI", [str "u1"]), (str "Filename", [str "/f"])]⟩ :=
  ⟨c10_get_first_value.1 ⟨600, [], [(str "URI", [str "u1", str "u2"])]⟩ (str "URI"),
   c10_get_first_value.2.1 [(str "URI", [str "u1"])] 600 [] (str "URI") (str "u2") (by decide),
   c10_get_first_value.2.2 envW stW _ _ (by decide) (by decide) (by decide)⟩

/-! ### Claim C7: credential-selector precedence -/

/-- Counterexample for the C7 claim as stated: this Configuration message
includes a Service-Account-JSON item with a non-empty path and a
Service-Account-Email item, yet after handleConfigure the JSON path is empty
and the email is still set, because a later JSON item with an empty path ran
last and the precedence rule then did not fire. -/
theorem c7_counterexample :
    (handleConfigure stW ⟨601, str "Configuration",
      [(str "Config-Item",
        [str "Acquire::gar::Service-Account-JSON=/path",
         str "Acquire::gar::Service-Account-Email=e@d",
         str "Acquire::gar::Service-Account-JSON="])]⟩).1.config =
      ⟨[], str "e@d", false⟩ := by decide

/-- Claim C7 (amended): for a 601 message whose Config-Item value list is
exactly one Service-Account-JSON item and one Service-Account-Email item, in
either order, with a JSON path that is non-empty after trimming, the resulting
configuration has the JSON path set to the trimmed path and the email empty. -/
theorem c7_credential_precedence (st : MethodState) (p e : Str) (msg : AptMessage)
    (hp : trimSpace p ≠ [])
    (hitems :
      lookupField msg.fields (str "Config-Item") =
        some [str "Acquire::gar::Service-Account-JSON=" ++ p,
              str "Acquire::gar::Service-Account-Email=" ++ e] ∨
      lookupField msg.fields (str "Config-Item") =
        some [str "Acquire::gar::Service-Account-Email=" ++ e,
              str "Acquire::gar::Service-Account-JSON=" ++ p]) :
    (handleConfigure st msg).1.config.serviceAccountJSON = trimSpace p ∧
    (handleConfigure st msg).1.config.serviceAccountEmail = [] := by
  have hshape1 : str "Acquire::gar::Service-Account-JSON=" ++ p =
      str "Acquire::gar::Service-Account-JSON" ++ '=' :: p := by
    rw [show str "Acquire::gar::Service-Account-JSON=" =
      str "Acquire::gar::Service-Account-JSON" ++ ['='] from by decide, List.append_assoc]
    rfl
  have hshape2 : str "Acquire::gar::Service-Account-Email=" ++ e =
      str "Acquire::gar::Service-Account-Email" ++ '=' :: e := by
    rw [show str "Acquire::gar::Service-Account-Email=" =
      str "Acquire::gar::Service-Account-Email" ++ ['='] from by decide, List.append_assoc]
    rfl
  have hsj : splitFirst '=' (str "Acquire::gar::Service-Account-JSON=" ++ p) =
      some (str "Acquire::gar::Service-Account-JSON", p) := by
    rw [hshape1]
    exact splitFirst_append '=' _ p (by decide)
  have hse : splitFirst '=' (str "Acquire::gar::Service-Account-Email=" ++ e) =
      some (str "Acquire::gar::Service-Account-Email", e) := by
    rw [hshape2]
    exact splitFirst_append '=' _ e (by decide)
  unfold handleConfigure
  rcases hitems with h | h <;>
    rw [h] <;>
    simp only [applyConfigItems, hsj, hse,
      eq_false (show ¬ str "Acquire::gar::Service-Account-JSON" =
        str "Acquire::gar::Service-Account-Email" from by decide),
      eq_false (show ¬ str "Acquire::gar::Service-Account-JSON" =
        str "Debug::Acquire::gar" from by decide),
      eq_false (show ¬ str "Acquire::gar::Service-Account-Email" =
        str "Acquire::gar::Service-Account-JSON" from by decide),
      eq_false (show ¬ str "Acquire::gar::Service-Account-Email" =
        str "Debug::Acquire::gar" from by decide),
      eq_self_iff_true, if_true, if_false] <;>
    rw [if_pos hp] <;>
    exact ⟨rfl, rfl⟩

/-- Witness for C7 (amended) at a concrete two-item Configuration, in both
orders. -/
theorem c7_credential_precedence_witness :
    ((handleConfigure stW ⟨601, str "Configuration",
      [(str "Config-Item",
        [str "Acquire::gar::Service-Account-JSON=/path",
         str "Acquire::gar::Service-Account-Email=e@d"])]⟩).1.config.serviceAccountJSON =
        trimSpace (str "/path") ∧
      (handleConfigure stW ⟨601, str "Configuration",
        [(str "Config-Item",
          [str "Acquire::gar::Service-Account-JSON=/path",
           str "Acquire::gar::Service-Account-Email=e@d"])]⟩).1.config.serviceAccountEmail =
        []) ∧
    ((handleConfigure stW ⟨601, str "Configuration",
      [(str "Config-Item",
        [str "Acquire::gar::Service-Account-Email=e@d",
         str "Acquire::gar::Service-Account-JSON=/path"])]⟩).1.config.serviceAccountJSON =
        trimSpace (str "/path") ∧
      (handleConfigure stW ⟨601, str "Configuration",
        [(str "Config-Item",
          [str "Acquire::gar::Service-Account-Email=e@d",
           str "Acquire::gar::Service-Account-JSON=/path"])]⟩).1.config.serviceAccountEmail =
        []) :=
  ⟨c7_credential_precedence stW (str "/path") (str "e@d") _ (by decide)
    (Or.inl (by decide)),
   c7_credential_precedence stW (str "/path") (str "e@d") _ (by decide)
    (Or.inr (by decide))⟩

/-! ### Claim C8: scheme rewrite -/

theorem isPrefixOf_append_self (a : Str) : ∀ b : Str, a.isPrefixOf (a ++ b) = true := by
  induction a with
  | nil => intro b; simp
  | cons c t ih =>
    intro b
    rw [List.cons_append, List.isPrefixOf_cons₂_self]
    exact ih b

theorem exists_append_of_isPrefixOf : ∀ (l1 l2 : Str), l1.isPrefixOf l2 = true →
    ∃ t, l1 ++ t = l2
  | [], l2, _ => ⟨l2, rfl⟩
  | _ :: _, [], h => by simp at h
  | a :: as, b :: bs, h => by
    rw [List.isPrefixOf_cons₂] at h
    simp only [Bool.and_eq_true] at h
    rcases h with ⟨h1, h2⟩
    rcases exists_append_of_isPrefixOf as bs h2 with ⟨t, ht⟩
    exact ⟨t, by rw [List.cons_append, ht, beq_iff_eq.mp h1]⟩

theorem infix_of_isPrefixOf (l1 l2 : Str) (h : l1.isPrefixOf l2 = true) : l1 <:+: l2 := by
  rcases exists_append_of_isPrefixOf l1 l2 h with ⟨t, ht⟩
  exact ⟨[], t, by simpa using ht⟩

theorem replaceOnce_not_contained (pat repl : Str) :
    ∀ s : Str, ¬ pat <:+: s → replaceOnce pat repl s = s
  | [], h => by
    rw [replaceOnce,
      if_neg (fun hpre => h (infix_of_isPrefixOf _ _ hpre))]
  | c :: rest, h => by
    rw [replaceOnce,
      if_neg (fun hpre => h (infix_of_isPrefixOf _ _ hpre)),
      replaceOnce_not_contained pat repl rest (fun hinf => h (List.infix_cons hinf))]

theorem replaceOnce_append (pat repl rest : Str) :
    replaceOnce pat repl (pat ++ rest) = repl ++ rest := by
  have hpre : pat.isPrefixOf (pat ++ rest) = true := isPrefixOf_append_self pat rest
  cases hp : pat ++ rest with
  | nil =>
    rcases List.append_eq_nil.mp hp with ⟨h1, h2⟩
    subst h1; subst h2
    simp [replaceOnce]
  | cons c t =>
    rw [hp] at hpre
    have hd : (c :: t).drop pat.length = rest := by
      rw [← hp]
      exact List.drop_left pat rest
    rw [replaceOnce, if_pos hpre, hd]

/-- Counterexample for the C8 claim as stated: a URI that does not begin with
the ar+https pseudo-scheme is not passed to the client unchanged when the
substring ar+https occurs later in it — the first occurrence anywhere is
replaced. -/
theorem c8_counterexample :
    (handleAcquire envW stW ⟨600, str "URI Acquire",
      [(str "URI", [str "https://e/ar+https/x"]), (str "Filename", [str "/f"])]⟩).calls =
      [ExtCall.http ⟨str "https://e/https/x", none⟩] ∧
    str "https://e/https/x" ≠ str "https://e/ar+https/x" := by
  constructor
  · decide
  · decide

/-- Claim C8 (amended): whenever handleAcquire reaches the HTTP round trip,
the URL handed to the client is the inbound URI with the first occurrence of
the substring ar+https (anywhere) replaced by https; a URI not containing
ar+https at all is passed unchanged, and a URI beginning with ar+https has
exactly that prefix rewritten. -/
theorem c8_scheme_rewrite (env : Env) (st st1 : MethodState) (msg : AptMessage)
    (hu : ¬ msg.Get (str "URI") = []) (hf : ¬ msg.Get (str "Filename") = [])
    (hinit : initClientModel env st = .ok st1)
    (hreq : env.newReqOk
      (replaceOnce (str "ar+https") (str "https") (msg.Get (str "URI"))) = true) :
    (∃ r rest, (handleAcquire env st msg).calls = ExtCall.http r :: rest ∧
      r.url = replaceOnce (str "ar+https") (str "https") (msg.Get (str "URI"))) ∧
    (∀ s : Str, ¬ (str "ar+https") <:+: s →
      replaceOnce (str "ar+https") (str "https") s = s) ∧
    (∀ rest : Str, replaceOnce (str "ar+https") (str "https") (str "ar+https" ++ rest) =
      str "https" ++ rest) := by
  refine ⟨?_, fun s hs => replaceOnce_not_contained _ _ s hs,
    fun rest => replaceOnce_append _ _ rest⟩
  simp only [handleAcquire, if_neg hu, if_neg hf, hinit]
  rw [if_neg (by simp [hreq])]
  split
  · exact ⟨_, _, rfl, rfl⟩
  · split
    · split
      · exact ⟨_, _, rfl, rfl⟩
      · exact ⟨_, _, rfl, rfl⟩
    · split
      · exact ⟨_, _, rfl, rfl⟩
      · exact ⟨_, _, rfl, rfl⟩

/-- Witness for C8 (amended) at a concrete acquire of an ar+https URI. -/
theorem c8_scheme_rewrite_witness :
    (∃ r rest, (handleAcquire envW stW ⟨600, str "URI Acquire",
        [(str "URI", [str "ar+https://h/p"]), (str "Filename", [str "/f"])]⟩).calls =
          ExtCall.http r :: rest ∧
      r.url = replaceOnce (str "ar+https") (str "https") (str "ar+https://h/p")) ∧
    (∀ s : Str, ¬ (str "ar+https") <:+: s →
      replaceOnce (str "ar+https") (str "https") s = s) ∧
    (∀ rest : Str, replaceOnce (str "ar+https") (str "https") (str "ar+https" ++ rest) =
      str "https" ++ rest) := by
  have h := c8_scheme_rewrite envW stW ⟨⟨[], [], false⟩, true⟩
    ⟨600, str "URI Acquire", [(str "URI", [str "ar+https://h/p"]), (str "Filename", [str "/f"])]⟩
    (by decide) (by decide) (by rfl) (by decide)
  exact ⟨h.1, h.2.1, h.2.2⟩

/-! ### Claim C5: conditional-GET hit -/

/-- A concrete environment with successful debug dumps. -/
def envDbg : Env :=
  ⟨fun _ => .ok (), fun _ => true, fun _ => .ok ⟨304, str "100", str "LM", str "B"⟩,
   fun _ => some (str "REQ"), fun _ => some (str "RESP"), fun _ _ => .ok (str "md5")⟩

/-- A concrete state with the debug flag enabled. -/
def stDbg : MethodState := ⟨⟨[], [], true⟩, false⟩

/-- Counterexample for the C5 claim as stated: with debug enabled and an HTTP
304 response, the handler emits three outbound messages (two 101 Log dumps and
the 201 URI Done), not exactly one. -/
theorem c5_counterexample :
    (handleAcquire envDbg stDbg ⟨600, str "URI Acquire",
      [(str "URI", [str "ar+https://h/p"]), (str "Filename", [str "/f"])]⟩).out =
      [new101Message (str "REQ"), new101Message (str "RESP"),
       new201Message (str "ar+https://h/p") (str "100") (str "LM") [] (str "/f") true] := by
  decide

theorem mem_logList (b : Bool) (o : Option Str) (mm : AptMessage)
    (h : mm ∈ logList b o) : mm.code = 101 := by
  unfold logList at h
  split at h
  · cases o with
    | none => simp at h
    | some d =>
      simp only [List.mem_singleton] at h
      subst h
      rfl
  · simp at h

theorem logList_filter_ne101 (b : Bool) (o : Option Str) :
    (logList b o).filter (fun mm => mm.code != 101) = [] := by
  rw [List.filter_eq_nil_iff]
  intro mm hm
  rw [mem_logList b o mm hm]
  decide

/-- Claim C5 (amended): on an HTTP 304 response the handler emits, apart from
optional 101 Log debug dumps, exactly one outbound message: a 201 URI Done
carrying IMS-Hit: true and no Size and no MD5-Hash field; it emits no 200 URI
Start, and the only external call is the single HTTP request — the downloader
never runs and no local file is written. -/
theorem c5_ims_hit (env : Env) (st st1 : MethodState) (msg : AptMessage) (resp : HttpResponse)
    (hu : ¬ msg.Get (str "URI") = []) (hf : ¬ msg.Get (str "Filename") = [])
    (hinit : initClientModel env st = .ok st1)
    (hreq : env.newReqOk
      (replaceOnce (str "ar+https") (str "https") (msg.Get (str "URI"))) = true)
    (hdo : env.doReq
      ⟨replaceOnce (str "ar+https") (str "https") (msg.Get (str "URI")),
        if msg.Get (str "Last-Modified") = [] then none
        else some (msg.Get (str "Last-Modified"))⟩ = .ok resp)
    (h304 : resp.statusCode = 304) :
    (handleAcquire env st msg).out.filter (fun mm => mm.code != 101) =
      [new201Message (msg.Get (str "URI")) resp.contentLength resp.lastModified []
        (msg.Get (str "Filename")) true] ∧
    (∀ mm ∈ (handleAcquire env st msg).out, mm.code ≠ 200) ∧
    (handleAcquire env st msg).calls =
      [ExtCall.http ⟨replaceOnce (str "ar+https") (str "https") (msg.Get (str "URI")),
        if msg.Get (str "Last-Modified") = [] then none
        else some (msg.Get (str "Last-Modified"))⟩] ∧
    getAll (new201Message (msg.Get (str "URI")) resp.contentLength resp.lastModified []
      (msg.Get (str "Filename")) true).fields (str "IMS-Hit") = [str "true"] ∧
    getAll (new201Message (msg.Get (str "URI")) resp.contentLength resp.lastModified []
      (msg.Get (str "Filename")) true).fields (str "Size") = [] ∧
    getAll (new201Message (msg.Get (str "URI")) resp.contentLength resp.lastModified []
      (msg.Get (str "Filename")) true).fields (str "MD5-Hash") = [] := by
  have hbranch : handleAcquire env st msg =
      ⟨st1,
        logList st1.config.debug (env.dumpRequest
          ⟨replaceOnce (str "ar+https") (str "https") (msg.Get (str "URI")),
            if msg.Get (str "Last-Modified") = [] then none
            else some (msg.Get (str "Last-Modified"))⟩) ++
        logList st1.config.debug (env.dumpResponse resp) ++
        [new201Message (msg.Get (str "URI")) resp.contentLength resp.lastModified []
          (msg.Get (str "Filename")) true],
        [ExtCall.http ⟨replaceOnce (str "ar+https") (str "https") (msg.Get (str "URI")),
          if msg.Get (str "Last-Modified") = [] then none
          else some (msg.Get (str "Last-Modified"))⟩]⟩ := by
    simp only [handleAcquire, if_neg hu, if_neg hf, hinit]
    rw [if_neg (by simp [hreq])]
    simp only [hdo]
    rw [if_neg (by rw [h304]; decide), if_pos h304]
  rw [hbranch]
  refine ⟨?_, ?_, rfl, rfl, rfl, rfl⟩
  · simp only [List.filter_append, logList_filter_ne101, List.nil_append]
    rfl
  · intro mm hm
    rcases List.mem_append.mp hm with hm1 | hm2
    · rcases List.mem_append.mp hm1 with hm3 | hm4
      · rw [mem_logList _ _ _ hm3]; decide
      · rw [mem_logList _ _ _ hm4]; decide
    · rw [List.mem_singleton] at hm2
      subst hm2
      exact (by decide : (201 : Int) ≠ 200)

/-- Witness for C5 (amended) at a concrete acquire with a 304 response. -/
theorem c5_ims_hit_witness :
    ((handleAcquire envW stW ⟨600, str "URI Acquire",
        [(str "URI", [str "ar+https://h/p"]), (str "Filename", [str "/f"])]⟩).out.filter
          (fun mm => mm.code != 101) =
      [new201Message (str "ar+https://h/p") (str "100") (str "LM") [] (str "/f") true]) ∧
    (∀ mm ∈ (handleAcquire envW stW ⟨600, str "URI Acquire",
        [(str "URI", [str "ar+https://h/p"]), (str "Filename", [str "/f"])]⟩).out,
      mm.code ≠ 200) := by
  have h := c5_ims_hit envW stW ⟨⟨[], [], false⟩, true⟩
    ⟨600, str "URI Acquire", [(str "URI", [str "ar+https://h/p"]), (str "Filename", [str "/f"])]⟩
    ⟨304, str "100", str "LM", str "B"⟩
    (by decide) (by decide) (by rfl) (by decide) (by rfl) (by decide)
  exact ⟨h.1, h.2.1⟩

/-! ### Claim C6: output ordering -/

theorem p_no200 (out : List AptMessage) (h : ∀ x ∈ out, x.code ≠ 200) :
    ∀ (i j : Nat) (mi mj : AptMessage), out[i]? = some mi → out[j]? = some mj →
      mi.code = 200 → mj.code = 201 → i < j := by
  intro i j mi mj hi _ h200 _
  exact absurd h200 (h mi (List.getElem?_mem hi))

theorem p_no201 (out : List AptMessage) (h : ∀ x ∈ out, x.code ≠ 201) :
    ∀ (i j : Nat) (mi mj : AptMessage), out[i]? = some mi → out[j]? = some mj →
      mi.code = 200 → mj.code = 201 → i < j := by
  intro i j mi mj _ hj _ h201
  exact absurd h201 (h mj (List.getElem?_mem hj))

theorem p_pair (a b : AptMessage) (ha : a.code = 200) (hb : b.code = 201) :
    ∀ (i j : Nat) (mi mj : AptMessage), [a, b][i]? = some mi → [a, b][j]? = some mj →
      mi.code = 200 → mj.code = 201 → i < j := by
  intro i j mi mj hi hj h200 h201
  match j, hj with
  | 0, hj =>
    rw [List.getElem?_cons_zero, Option.some.injEq] at hj
    subst hj
    rw [ha] at h201
    exact absurd h201 (by decide)
  | 1, hj =>
    match i, hi with
    | 0, _ => omega
    | 1, hi =>
      rw [List.getElem?_cons_succ, List.getElem?_cons_zero, Option.some.injEq] at hi
      subst hi
      rw [hb] at h200
      exact absurd h200 (by decide)
    | n + 2, hi => simp at hi
  | n + 2, hj => simp at hj

theorem p_append_logs (L tail : List AptMessage) (hL : ∀ x ∈ L, x.code = 101)
    (htail : ∀ (i j : Nat) (mi mj : AptMessage), tail[i]? = some mi → tail[j]? = some mj →
      mi.code = 200 → mj.code = 201 → i < j) :
    ∀ (i j : Nat) (mi mj : AptMessage), (L ++ tail)[i]? = some mi →
      (L ++ tail)[j]? = some mj → mi.code = 200 → mj.code = 201 → i < j := by
  intro i j mi mj hi hj h200 h201
  have hilen : L.length ≤ i := by
    by_contra hlt
    push_neg at hlt
    rw [List.getElem?_append_left hlt] at hi
    have h101 := hL mi (List.getElem?_mem hi)
    rw [h101] at h200
    exact absurd h200 (by decide)
  have hjlen : L.length ≤ j := by
    by_contra hlt
    push_neg at hlt
    rw [List.getElem?_append_left hlt] at hj
    have h101 := hL mj (List.getElem?_mem hj)
    rw [h101] at h201
    exact absurd h201 (by decide)
  rw [List.getElem?_append_right hilen] at hi
  rw [List.getElem?_append_right hjlen] at hj
  have := htail (i - L.length) (j - L.length) mi mj hi hj h200 h201
  omega

theorem code101_append (L1 L2 : List AptMessage) (h1 : ∀ x ∈ L1, x.code = 101)
    (h2 : ∀ x ∈ L2, x.code = 101) : ∀ x ∈ L1 ++ L2, x.code = 101 := by
  intro x hx
  rcases List.mem_append.mp hx with h | h
  · exact h1 x h
  · exact h2 x h

/-- Claim C6: in every run the 100 Capabilities message is the first outbound
message, and within any single acquisition a 200 URI Start, when present,
appears at a strictly earlier position than the 201 URI Done. -/
theorem c6_output_ordering :
    (∀ (env : Env) (st : MethodState) (input : Str),
      ∃ rest, (runMethod env st input).1 = new100Message :: rest) ∧
    (∀ (env : Env) (st : MethodState) (msg : AptMessage) (i j : Nat) (mi mj : AptMessage),
      (handleAcquire env st msg).out[i]? = some mi →
      (handleAcquire env st msg).out[j]? = some mj →
      mi.code = 200 → mj.code = 201 → i < j) := by
  constructor
  · intro env st input
    exact ⟨(runLines env st none (goLines input)).1, rfl⟩
  · intro env st msg i j mi mj
    simp only [handleAcquire]
    split
    · refine p_no200 _ ?_ i j mi mj
      intro x hx
      simp only [List.mem_singleton] at hx
      subst hx
      exact (by decide : (401 : Int) ≠ 200)
    · split
      · refine p_no200 _ ?_ i j mi mj
        intro x hx
        simp only [List.mem_singleton] at hx
        subst hx
        exact (by decide : (400 : Int) ≠ 200)
      · split
        · refine p_no200 _ ?_ i j mi mj
          intro x hx
          simp only [List.mem_singleton] at hx
          subst hx
          exact (by decide : (400 : Int) ≠ 200)
        · split
          · refine p_no200 _ ?_ i j mi mj
            intro x hx
            simp at hx
          · split
            · refine p_append_logs _ _ (fun x hx => mem_logList _ _ x hx) ?_ i j mi mj
              refine p_no200 _ ?_
              intro x hx
              simp only [List.mem_singleton] at hx
              subst hx
              exact (by decide : (400 : Int) ≠ 200)
            · split
              · split
                · refine p_append_logs _ _
                    (code101_append _ _ (fun x hx => mem_logList _ _ x hx)
                      (fun x hx => mem_logList _ _ x hx)) ?_ i j mi mj
                  refine p_no201 _ ?_
                  intro x hx
                  rcases List.mem_cons.mp hx with h1 | h2
                  · subst h1; exact (by decide : (200 : Int) ≠ 201)
                  · simp only [List.mem_singleton] at h2
                    subst h2
                    exact (by decide : (400 : Int) ≠ 201)
                · refine p_append_logs _ _
                    (code101_append _ _ (fun x hx => mem_logList _ _ x hx)
                      (fun x hx => mem_logList _ _ x hx)) ?_ i j mi mj
                  exact p_pair _ _ rfl rfl
              · split
                · refine p_append_logs _ _
                    (code101_append _ _ (fun x hx => mem_logList _ _ x hx)
                      (fun x hx => mem_logList _ _ x hx)) ?_ i j mi mj
                  refine p_no200 _ ?_
                  intro x hx
                  simp only [List.mem_singleton] at hx
                  subst hx
                  exact (by decide : (201 : Int) ≠ 200)
                · refine p_append_logs _ _
                    (code101_append _ _ (fun x hx => mem_logList _ _ x hx)
                      (fun x hx => mem_logList _ _ x hx)) ?_ i j mi mj
                  refine p_no200 _ ?_
                  intro x hx
                  simp only [List.mem_singleton] at hx
                  subst hx
                  exact (by decide : (400 : Int) ≠ 200)

/-- Witness for C6 at a concrete run and a concrete 200-to-201 acquisition. -/
theorem c6_output_ordering_witness :
    (∃ rest, (runMethod envW stW (str "600 U\nURI: u\nFilename: /f\n\n")).1 =
      new100Message :: rest) ∧ (0 : Nat) < 1 := by
  have h2 := c6_output_ordering.2 (Env.mk (fun _ => .ok ())
      (fun _ => true) (fun _ => .ok ⟨200, str "5", str "LM", str "B"⟩)
      (fun _ => none) (fun _ => none) (fun _ _ => .ok (str "md5")))
    stW ⟨600, str "URI Acquire", [(str "URI", [str "u"]), (str "Filename", [str "/f"])]⟩
    0 1 (new200Message (str "u") (str "5") (str "LM"))
    (new201Message (str "u") (str "5") (str "LM") (str "md5") (str "/f") false)
    (by rfl) (by rfl) rfl rfl
  exact ⟨c6_output_ordering.1 envW stW (str "600 U\nURI: u\nFilename: /f\n\n"), h2⟩

/-! ### Claim C9: fate of read errors in the main loop -/

theorem parseHeaderFn_error_range (m : AptMessage) (l : Str) (e : ReadErr)
    (h : parseHeaderFn m l = .error e) : e ≠ .eof ∧ e ≠ .emptyMessage := by
  unfold parseHeaderFn at h
  split at h
  · cases h; exact ⟨by decide, by decide⟩
  · split at h
    · cases h; exact ⟨by decide, by decide⟩
    · split at h
      · cases h; exact ⟨by decide, by decide⟩
      · split at h
        · cases h; exact ⟨by decide, by decide⟩
        · cases h

theorem parseFieldFn_error_range (m : AptMessage) (l : Str) (e : ReadErr)
    (h : parseFieldFn m l = .error e) : e ≠ .eof ∧ e ≠ .emptyMessage := by
  unfold parseFieldFn at h
  split at h
  · cases h; exact ⟨by decide, by decide⟩
  · split at h
    · cases h; exact ⟨by decide, by decide⟩
    · simp only [] at h
      split at h
      · cases h; exact ⟨by decide, by decide⟩
      · cases h

/-- Counterexample for the C9 claim as stated: an empty-message framing error
(blank line with no pending message) does not terminate the loop — the run
skips it, answers the following message, and ends without error. -/
theorem c9_counterexample :
    runMethod envW stW (str "\n700 Foo\n\n") =
      ([new100Message,
        new401Message (str "Unsupported message code 700 received from apt")], none) := by
  decide

/-- Claim C9 (amended): whenever ReadMessage signals an error other than
end-of-input and other than the empty-message error, the receive loop stops
with no further output and propagates exactly that error; end-of-input stops
the loop successfully; the empty-message error is skipped, the loop continuing
on the remaining input. -/
theorem c9_read_error_fate (env : Env) (st : MethodState) :
    ∀ (lines : List Str) (pending : Option AptMessage),
    (∀ e p rest, readMessageLines pending lines = .err e p rest → e ≠ .eof →
      e ≠ .emptyMessage → runLines env st pending lines = ([], some e)) ∧
    (∀ p rest, readMessageLines pending lines = .err .eof p rest →
      runLines env st pending lines = ([], none)) ∧
    (∀ p rest, readMessageLines pending lines = .err .emptyMessage p rest →
      runLines env st pending lines = runLines env st p rest) := by
  intro lines
  induction lines with
  | nil =>
    intro pending
    refine ⟨?_, ?_, ?_⟩
    · intro e p rest h he _
      rw [readMessageLines] at h
      cases h
      exact absurd rfl he
    · intro p rest _
      rfl
    · intro p rest h
      rw [readMessageLines] at h
      cases h
  | cons line tail ih =>
    intro pending
    by_cases hblank : trimSpace line = []
    · cases pending with
      | none =>
        have hr : readMessageLines none (line :: tail) = .err .emptyMessage none tail := by
          rw [readMessageLines.eq_def]
          simp [hblank]
        have hrun : runLines env st none (line :: tail) = runLines env st none tail := by
          rw [runLines.eq_def]
          simp [hblank]
        refine ⟨?_, ?_, ?_⟩
        · intro e p rest h _ he2
          rw [hr] at h
          cases h
          exact absurd rfl he2
        · intro p rest h
          rw [hr] at h
          cases h
        · intro p rest h
          rw [hr] at h
          cases h
          exact hrun
      | some m =>
        have hr : readMessageLines (some m) (line :: tail) = .ok m tail := by
          rw [readMessageLines.eq_def]
          simp [hblank]
        refine ⟨?_, ?_, ?_⟩
        · intro e p rest h _ _
          rw [hr] at h
          cases h
        · intro p rest h
          rw [hr] at h
          cases h
        · intro p rest h
          rw [hr] at h
          cases h
    · cases pending with
      | none =>
        cases hph : parseHeaderFn ⟨0, [], []⟩ (trimSpace line) with
        | error e0 =>
          have hr : readMessageLines none (line :: tail) =
              .err e0 (some ⟨0, [], []⟩) tail := by
            rw [readMessageLines.eq_def]
            simp only [if_neg hblank, hph]
          have hrun : runLines env st none (line :: tail) = ([], some e0) := by
            rw [runLines.eq_def]
            simp only [if_neg hblank, hph]
          refine ⟨?_, ?_, ?_⟩
          · intro e p rest h _ _
            rw [hr] at h
            cases h
            exact hrun
          · intro p rest h
            rw [hr] at h
            cases h
            exact absurd rfl (parseHeaderFn_error_range _ _ _ hph).1
          · intro p rest h
            rw [hr] at h
            cases h
            exact absurd rfl (parseHeaderFn_error_range _ _ _ hph).2
        | ok m1 =>
          have hr : readMessageLines none (line :: tail) =
              readMessageLines (some m1) tail := by
            rw [readMessageLines.eq_def]
            simp only [if_neg hblank, hph]
          have hrun : runLines env st none (line :: tail) =
              runLines env st (some m1) tail := by
            rw [runLines.eq_def]
            simp only [if_neg hblank, hph]
          refine ⟨?_, ?_, ?_⟩
          · intro e p rest h he1 he2
            rw [hrun]
            exact (ih (some m1)).1 e p rest (hr ▸ h) he1 he2
          · intro p rest h
            rw [hrun]
            exact (ih (some m1)).2.1 p rest (hr ▸ h)
          · intro p rest h
            rw [hrun]
            exact (ih (some m1)).2.2 p rest (hr ▸ h)
      | some m =>
        cases hpf : parseFieldFn m (trimSpace line) with
        | error e0 =>
          have hr : readMessageLines (some m) (line :: tail) = .err e0 (some m) tail := by
            rw [readMessageLines.eq_def]
            simp only [if_neg hblank, hpf]
          have hrun : runLines env st (some m) (line :: tail) = ([], some e0) := by
            rw [runLines.eq_def]
            simp only [if_neg hblank, hpf]
          refine ⟨?_, ?_, ?_⟩
          · intro e p rest h _ _
            rw [hr] at h
            cases h
            exact hrun
          · intro p rest h
            rw [hr] at h
            cases h
            exact absurd rfl (parseFieldFn_error_range _ _ _ hpf).1
          · intro p rest h
            rw [hr] at h
            cases h
            exact absurd rfl (parseFieldFn_error_range _ _ _ hpf).2
        | ok m1 =>
          have hr : readMessageLines (some m) (line :: tail) =
              readMessageLines (some m1) tail := by
            rw [readMessageLines.eq_def]
            simp only [if_neg hblank, hpf]
          have hrun : runLines env st (some m) (line :: tail) =
              runLines env st (some m1) tail := by
            rw [runLines.eq_def]
            simp only [if_neg hblank, hpf]
          refine ⟨?_, ?_, ?_⟩
          · intro e p rest h he1 he2
            rw [hrun]
            exact (ih (some m1)).1 e p rest (hr ▸ h) he1 he2
          · intro p rest h
            rw [hrun]
            exact (ih (some m1)).2.1 p rest (hr ▸ h)
          · intro p rest h
            rw [hrun]
            exact (ih (some m1)).2.2 p rest (hr ▸ h)

/-- Witness for C9 (amended): a malformed header is fatal with that error, end
of input ends the run cleanly, and a leading blank line is skipped. -/
theorem c9_read_error_fate_witness :
    runLines envW stW none [str "badline"] = ([], some .malformedHeaderParts) ∧
    runLines envW stW none [] = ([], none) ∧
    runLines envW stW none [[], str "700 Foo"] = runLines envW stW none [str "700 Foo"] := by
  refine ⟨?_, ?_, ?_⟩
  · exact (c9_read_error_fate envW stW [str "badline"] none).1 .malformedHeaderParts
      (some ⟨0, [], []⟩) [] (by decide) (by decide) (by decide)
  · exact (c9_read_error_fate envW stW [] none).2.1 none [] (by decide)
  · exact (c9_read_error_fate envW stW [[], str "700 Foo"] none).2.2 none [str "700 Foo"]
      (by decide)

/-! ### Claim C2: canonical serialization order -/

/-- Claim C2: Message.String emits field names sorted by ordinal byte
comparison (so no name starting with a lower-case letter precedes one starting
with an upper-case letter), emits the values of each name in their original
insertion order, and replaces every embedded newline sequence in a value with
the two-character escape of a backslash followed by n — the emitted values are
the escaped originals, escaping is the identity on newline-free values, and
escaped values contain no newline. -/
theorem c2_serialization_order (m : AptMessage) (hnd : (m.fields.map Prod.fst).Nodup) :
    List.Pairwise byteLE ((emitPairs m).map Prod.fst) ∧
    List.Pairwise (fun a b : Str => ¬(startsLowerAlpha a = true ∧ startsUpperAlpha b = true))
      ((emitPairs m).map Prod.fst) ∧
    (∀ k : Str, ((emitPairs m).filter (fun p => decide (p.1 = k))).map Prod.snd =
      (getAll m.fields k).map escapeNewlines) ∧
    (∀ v : Str, '\n' ∉ escapeNewlines v) ∧
    (∀ v : Str, '\n' ∉ v → escapeNewlines v = v) := by
  have hsorted : List.Pairwise byteLE (sortedKeys m) :=
    List.sorted_insertionSort byteLE (m.fields.map Prod.fst)
  have hpw : List.Pairwise (fun p q : Str × Str => byteLE p.1 q.1) (emitPairs m) := by
    rw [emitPairs_eq]
    exact pairwise_emit _ (sortedKeys m) hsorted
  have ha : List.Pairwise byteLE ((emitPairs m).map Prod.fst) := by
    rw [List.pairwise_map]
    exact hpw
  refine ⟨ha, ?_, ?_, newline_not_mem_escape, escapeNewlines_eq_self⟩
  · refine ha.imp ?_
    intro a b hab hc
    exact not_lower_before_upper a b hab hc.1 hc.2
  · intro k
    have hnd2 : (sortedKeys m).Nodup :=
      ((List.perm_insertionSort byteLE (m.fields.map Prod.fst)).nodup_iff).mpr hnd
    rw [emitPairs_eq,
      filter_emit (fun k0 => (getAll m.fields k0).map escapeNewlines) k (sortedKeys m) hnd2]
    by_cases hk : k ∈ sortedKeys m
    · rw [if_pos hk]
    · rw [if_neg hk]
      have hnm : k ∉ m.fields.map Prod.fst := fun hm =>
        hk ((List.perm_insertionSort byteLE (m.fields.map Prod.fst)).mem_iff.mpr hm)
      rw [getAll_eq_nil_of_not_mem _ _ hnm]
      rfl

/-- Witness for C2 at the message of the writer test (three distinct names,
one with two values). -/
theorem c2_serialization_order_witness :
    List.Pairwise byteLE ((emitPairs ⟨123, str "Fake",
      [(str "akey", [str "val1", str "val2"]), (str "zkey", [str "val4"]),
       (str "Zkey", [str "val3"])]⟩).map Prod.fst) ∧
    (∀ k : Str, ((emitPairs ⟨123, str "Fake",
      [(str "akey", [str "val1", str "val2"]), (str "zkey", [str "val4"]),
       (str "Zkey", [str "val3"])]⟩).filter (fun p => decide (p.1 = k))).map Prod.snd =
      (getAll [(str "akey", [str "val1", str "val2"]), (str "zkey", [str "val4"]),
       (str "Zkey", [str "val3"])] k).map escapeNewlines) := by
  have h := c2_serialization_order ⟨123, str "Fake",
    [(str "akey", [str "val1", str "val2"]), (str "zkey", [str "val4"]),
     (str "Zkey", [str "val3"])]⟩ (by decide)
  exact ⟨h.1, h.2.2.1⟩

/-! ### Claim C1: round-trip of the codec -/

theorem trimSpace_nil : trimSpace [] = [] := rfl

theorem mem_of_head? {c : Char} : ∀ {s : Str}, s.head? = some c → c ∈ s := by
  intro s h
  cases s with
  | nil => simp at h
  | cons a t =>
    simp only [List.head?_cons, Option.some.injEq] at h
    subst h
    exact List.mem_cons_self a t

theorem header_line_trim (code : Int) (d : Str) (hd : trimSpace d = d) (hne : d ≠ []) :
    trimSpace (showInt code ++ ' ' :: d) = showInt code ++ ' ' :: d := by
  apply trim_fix_of
  · intro c hc
    rw [List.head?_append] at hc
    cases hh : (showInt code).head? with
    | none =>
      exact absurd (List.head?_eq_none_iff.mp hh) (showInt_ne_nil code)
    | some c0 =>
      rw [hh] at hc
      simp only [Option.or_some, Option.some.injEq] at hc
      subst hc
      exact showInt_nonspace code c0 (mem_of_head? hh)
  · intro c hc
    rw [List.getLast?_append_of_ne_nil _ (by simp)] at hc
    have hc2 : d.getLast? = some c := by
      have he : (' ' :: d).getLast? = ([' '] ++ d).getLast? := rfl
      rw [he, List.getLast?_append_of_ne_nil _ hne] at hc
      exact hc
    exact trim_last_nonspace d hd c hc2

theorem field_line_trim (k v : Str) (hk : trimSpace k = k) (hkne : k ≠ [])
    (hv : trimSpace v = v) (hvne : v ≠ []) :
    trimSpace (k ++ ':' :: ' ' :: v) = k ++ ':' :: ' ' :: v := by
  apply trim_fix_of
  · intro c hc
    rw [List.head?_append] at hc
    cases hh : k.head? with
    | none => exact absurd (List.head?_eq_none_iff.mp hh) hkne
    | some c0 =>
      rw [hh] at hc
      simp only [Option.or_some, Option.some.injEq] at hc
      subst hc
      exact trim_head_nonspace k hk c0 hh
  · intro c hc
    rw [List.getLast?_append_of_ne_nil _ (by simp)] at hc
    have hc2 : v.getLast? = some c := by
      have he : (':' :: ' ' :: v).getLast? = ([':', ' '] ++ v).getLast? := rfl
      rw [he, List.getLast?_append_of_ne_nil _ hvne] at hc
      exact hc
    exact trim_last_nonspace v hv c hc2

theorem map_escape_id (vs : List Str) (h : ∀ v ∈ vs, '\n' ∉ v) :
    vs.map escapeNewlines = vs := by
  induction vs with
  | nil => rfl
  | cons v t ih =>
    rw [List.map_cons, escapeNewlines_eq_self v (h v (List.mem_cons_self v t)),
      ih (fun w hw => h w (List.mem_cons_of_mem v hw))]

/-- A string whose ends survive trimming and that contains no newline; every
well-formed protocol token has this shape. -/
def WFStr (s : Str) : Prop := s ≠ [] ∧ trimSpace s = s ∧ '\n' ∉ s

instance (s : Str) : Decidable (WFStr s) := by
  unfold WFStr
  infer_instance

/-- A Go Message value whose wire form is unambiguous: the code fits the
64-bit int of the Go struct, the description and every field name and value
are non-empty, trimmed and newline-free, names contain no colon, and the
field-map keys are distinct (the Go map invariant). -/
def WFMessage (m : AptMessage) : Prop :=
  (-(2 ^ 63) ≤ m.code ∧ m.code < 2 ^ 63) ∧
  WFStr m.description ∧
  (m.fields.map Prod.fst).Nodup ∧
  ∀ kv ∈ m.fields, (WFStr kv.1 ∧ ':' ∉ kv.1) ∧ ∀ v ∈ kv.2, WFStr v

instance (m : AptMessage) : Decidable (WFMessage m) := by
  unfold WFMessage
  infer_instance

theorem emitPairs_mem_wf (m : AptMessage)
    (hf : ∀ kv ∈ m.fields, (WFStr kv.1 ∧ ':' ∉ kv.1) ∧ ∀ v ∈ kv.2, WFStr v)
    (p : Str × Str) (hp : p ∈ emitPairs m) :
    (WFStr p.1 ∧ ':' ∉ p.1) ∧ WFStr p.2 := by
  unfold emitPairs at hp
  rcases List.mem_flatMap.mp hp with ⟨k, hk, hp2⟩
  rcases List.mem_map.mp hp2 with ⟨v, hv, rfl⟩
  have hkm : k ∈ m.fields.map Prod.fst :=
    (List.perm_insertionSort byteLE (m.fields.map Prod.fst)).mem_iff.mp hk
  have hent := hf (k, getAll m.fields k) (mem_fields_of_getAll m.fields k hkm)
  have hvwf : WFStr v := hent.2 v hv
  have hesc : escapeNewlines v = v := escapeNewlines_eq_self v hvwf.2.2
  exact ⟨hent.1, by rw [hesc]; exact hvwf⟩

theorem parseHeaderFn_header (code : Int) (d : Str) (hlo : -(2 ^ 63) ≤ code)
    (hhi : code < 2 ^ 63) (hd : trimSpace d = d) (hdne : d ≠ []) :
    parseHeaderFn ⟨0, [], []⟩ (showInt code ++ ' ' :: d) = .ok ⟨code, d, []⟩ := by
  have hne2 : ¬ showInt code ++ ' ' :: d = [] := by
    simp
  unfold parseHeaderFn
  rw [if_neg hne2, if_neg (by simp)]
  rw [header_line_trim code d hd hdne,
    splitFirst_append ' ' (showInt code) d (space_not_mem_showInt code)]
  simp only [trim_fix_of_all _ (showInt_nonspace code), goAtoi_showInt code hlo hhi, hd]

theorem readMessageLines_fields :
    ∀ (pairs : List (Str × Str)) (m0 : AptMessage) (tail : List Str),
    (∀ p ∈ pairs, (p.1 ≠ [] ∧ trimSpace p.1 = p.1 ∧ ':' ∉ p.1) ∧
      (p.2 ≠ [] ∧ trimSpace p.2 = p.2)) →
    readMessageLines (some m0) ((pairs.map (fun p => p.1 ++ ':' :: ' ' :: p.2)) ++ ([] :: tail)) =
      .ok ⟨m0.code, m0.description, foldFields m0.fields pairs⟩ tail
  | [], m0, tail, _ => by
    rw [List.map_nil, List.nil_append, readMessageLines.eq_def]
    simp [trimSpace_nil, foldFields_nil]
  | p :: rest, m0, tail, hw => by
    have hp := hw p (List.mem_cons_self p rest)
    have hline : trimSpace (p.1 ++ ':' :: ' ' :: p.2) = p.1 ++ ':' :: ' ' :: p.2 :=
      field_line_trim p.1 p.2 hp.1.2.1 hp.1.1 hp.2.2 hp.2.1
    have hlne : ¬ p.1 ++ ':' :: ' ' :: p.2 = [] := by simp
    have hpf : parseFieldFn m0 (p.1 ++ ':' :: ' ' :: p.2) =
        .ok ⟨m0.code, m0.description, appendField m0.fields p.1 p.2⟩ := by
      unfold parseFieldFn
      rw [if_neg hlne, hline, splitFirst_append ':' p.1 (' ' :: p.2) hp.1.2.2]
      simp only [trimSpace_cons_space, hp.1.2.1, hp.2.2]
      rw [if_neg (by
        rintro (h1 | h2)
        · exact hp.1.1 h1
        · exact hp.2.1 h2)]
    rw [List.map_cons, List.cons_append, readMessageLines.eq_def]
    simp only [hline, if_neg hlne, hpf]
    rw [readMessageLines_fields rest _ tail
      (fun q hq => hw q (List.mem_cons_of_mem p hq))]
    rw [foldFields_cons]

theorem emitPairs_snd_no_newline (m : AptMessage) (p : Str × Str)
    (hp : p ∈ emitPairs m) : '\n' ∉ p.2 := by
  unfold emitPairs at hp
  rcases List.mem_flatMap.mp hp with ⟨k, _, hp2⟩
  rcases List.mem_map.mp hp2 with ⟨v, _, rfl⟩
  exact newline_not_mem_escape v

theorem goLines_mString (m : AptMessage) (hdnl : '\n' ∉ m.description)
    (hfnl : ∀ p ∈ emitPairs m, '\n' ∉ p.1) :
    goLines (mString m) = (showInt m.code ++ ' ' :: m.description) ::
      ((emitPairs m).map (fun p => p.1 ++ ':' :: ' ' :: p.2) ++ [[]]) := by
  have hshape : mString m =
      joinNL (((showInt m.code ++ ' ' :: m.description) ::
        ((emitPairs m).map (fun p => p.1 ++ ':' :: ' ' :: p.2) ++ [[]])) ++ [[]]) := by
    unfold mString
    congr 1
    simp [List.append_assoc]
  have hnl : ∀ l ∈ (showInt m.code ++ ' ' :: m.description) ::
      ((emitPairs m).map (fun p => p.1 ++ ':' :: ' ' :: p.2) ++ [[]]), '\n' ∉ l := by
    intro l hl
    rcases List.mem_cons.mp hl with h1 | h2
    · subst h1
      intro hm
      rcases List.mem_append.mp hm with hm1 | hm2
      · exact newline_not_mem_showInt m.code hm1
      · rcases List.mem_cons.mp hm2 with hm3 | hm4
        · exact absurd hm3 (by decide)
        · exact hdnl hm4
    · rcases List.mem_append.mp h2 with h3 | h4
      · rcases List.mem_map.mp h3 with ⟨q, hq, rfl⟩
        intro hm
        rcases List.mem_append.mp hm with hm1 | hm2
        · exact hfnl q hq hm1
        · rcases List.mem_cons.mp hm2 with hm3 | hm4
          · exact absurd hm3 (by decide)
          rcases List.mem_cons.mp hm4 with hm5 | hm6
          · exact absurd hm5 (by decide)
          · exact emitPairs_snd_no_newline m q hq hm6
      · simp only [List.mem_singleton] at h4
        subst h4
        simp
  unfold goLines
  rw [hshape, splitLinesGo_joinNL _ hnl]

/-- Counterexample for the C1 claim as stated: a Message with a non-empty
field map but an empty description serializes to a header line that trims to
a single token, and reading that serialization back fails with a malformed
header error instead of yielding an equal Message. -/
theorem c1_counterexample :
    readMessageLines none (goLines (mString ⟨123, [], [(str "akey", [str "val1"])]⟩)) =
      .err .malformedHeaderParts (some ⟨0, [], []⟩) [str "akey: val1", []] := by
  decide

/-- Claim C1 (amended): for every Message with a non-empty field map whose
description, field names and values are non-empty, whitespace-trimmed and
newline-free, whose names contain no colon, whose keys are distinct and whose
code fits a 64-bit int, reading back the serialization yields a Message with
the same code, the same description and, for every field name, the same
ordered list of values, consuming the whole serialization. -/
theorem c1_roundtrip (m : AptMessage) (hwf : WFMessage m) (_hne : m.fields ≠ []) :
    ∃ m', readMessageLines none (goLines (mString m)) = .ok m' [] ∧
      m'.code = m.code ∧ m'.description = m.description ∧
      ∀ k : Str, getAll m'.fields k = getAll m.fields k := by
  obtain ⟨⟨hlo, hhi⟩, ⟨hdne, hdtrim, hdnl⟩, hnd, hf⟩ := hwf
  refine ⟨⟨m.code, m.description, foldFields [] (emitPairs m)⟩, ?_, rfl, rfl, ?_⟩
  · rw [goLines_mString m hdnl
      (fun p hp => (emitPairs_mem_wf m hf p hp).1.1.2.2)]
    have hhtrim : trimSpace (showInt m.code ++ ' ' :: m.description) =
        showInt m.code ++ ' ' :: m.description :=
      header_line_trim m.code m.description hdtrim hdne
    have hhne : ¬ showInt m.code ++ ' ' :: m.description = [] := by simp
    rw [readMessageLines.eq_def]
    simp only [hhtrim, if_neg hhne,
      parseHeaderFn_header m.code m.description hlo hhi hdtrim hdne]
    have hfields := readMessageLines_fields (emitPairs m) ⟨m.code, m.description, []⟩ []
      (fun p hp => by
        have hq := emitPairs_mem_wf m hf p hp
        exact ⟨⟨hq.1.1.1, hq.1.1.2.1, hq.1.2⟩, hq.2.1, hq.2.2.1⟩)
    rw [hfields]
  · intro k
    rw [getAll_foldFields, getAll_nil, List.nil_append]
    have hnd2 : (sortedKeys m).Nodup :=
      ((List.perm_insertionSort byteLE (m.fields.map Prod.fst)).nodup_iff).mpr hnd
    rw [emitPairs_eq,
      filter_emit (fun k0 => (getAll m.fields k0).map escapeNewlines) k (sortedKeys m) hnd2]
    by_cases hk : k ∈ sortedKeys m
    · rw [if_pos hk]
      have hkm : k ∈ m.fields.map Prod.fst :=
        (List.perm_insertionSort byteLE (m.fields.map Prod.fst)).mem_iff.mp hk
      have hent := hf (k, getAll m.fields k) (mem_fields_of_getAll m.fields k hkm)
      exact map_escape_id _ (fun v hv => (hent.2 v hv).2.2)
    · rw [if_neg hk]
      have hnm : k ∉ m.fields.map Prod.fst := fun hm =>
        hk ((List.perm_insertionSort byteLE (m.fields.map Prod.fst)).mem_iff.mpr hm)
      rw [getAll_eq_nil_of_not_mem _ _ hnm]

/-- Witness for C1 (amended) at a concrete well-formed 600 message with two
fields. -/
theorem c1_roundtrip_witness :
    ∃ m', readMessageLines none (goLines (mString ⟨600, str "URI Acquire",
        [(str "Filename", [str "/tmp/f"]), (str "URI", [str "ar+https://x"])]⟩)) =
        .ok m' [] ∧
      m'.code = (600 : Int) ∧ m'.description = str "URI Acquire" ∧
      ∀ k : Str, getAll m'.fields k =
        getAll [(str "Filename", [str "/tmp/f"]), (str "URI", [str "ar+https://x"])] k :=
  c1_roundtrip ⟨600, str "URI Acquire",
    [(str "Filename", [str "/tmp/f"]), (str "URI", [str "ar+https://x"])]⟩
    (by decide) (by decide)

end ArApt
